import Mathlib

/-!
Verification of the BriefBoard (Personal-Newsfeed) core pipeline.

This file shallowly embeds the algorithmic core of the repository:
  * scripts/build-today-json.mjs (MVP-2 revision): normalizeTitle,
    keywordsFromTitle, overlapScore, reliabilityBucket, parseRssItem,
    dedupe, clusterItems, toTodayJson;
  * src/utils/scoring.ts: reliabilityValue, sourceWeightValue,
    sensationalismPenalty, chooseBestArticle;
  * src/utils/ranking.ts: deriveClusters.

Modelling conventions:
  * JS numbers are modelled as rationals (the concrete inputs used in the
    closed theorems keep every intermediate value exactly representable as a
    binary double, so the rational model and the JS float computation agree
    on those inputs);
  * ISO timestamp strings are modelled by their millisecond epoch value
    (`Int`), which is how the code compares them (`new Date(x).getTime()`);
  * a thrown JS exception is modelled as `Except.error` / `Option.none`;
  * `Array.prototype.sort` (stable in ECMAScript) is modelled by a stable
    insertion sort: for a comparator inducing a total preorder the stable
    sorted result is unique, so the model is exact;
  * the engine-provided date parser (`new Date(string)`) and URL parser are
    external inputs of the script; they are passed as explicit function
    parameters (`parseDate`, `canon`, `dom`) rather than re-implemented.
-/

attribute [local semireducible] Rat.add Rat.mul Rat.inv Rat.sub

namespace Newsfeed

/-! ## JS primitives -/

/-- Conversion of a list to a JS `Set` and back (`[...new Set(l)]`):
keeps the first occurrence of each element, in first-occurrence order. -/
def jsSetDedup (l : List String) : List String :=
  l.foldl (fun acc x => if x ∈ acc then acc else acc ++ [x]) []

/-- Whitespace as matched by the `\s` regex class (for the characters that
occur in feed titles). -/
def isSpaceChar (c : Char) : Bool :=
  c = ' ' || c = '\t' || c = '\n' || c = '\r'

/-- Substring test over char lists (JS `String.prototype.includes`). -/
def listContainsSub (sub s : List Char) : Bool :=
  s.tails.any (fun t => sub.isPrefixOf t)

/-- JS `haystack.includes(needle)`. -/
def strContains (haystack needle : String) : Bool :=
  listContainsSub needle.toList haystack.toList

/-- JS `s.startsWith(pre)` (used to state facts about trace strings). -/
def strStartsWith (s pre : String) : Bool :=
  pre.toList.isPrefixOf s.toList

/-- Code-point lexicographic "at most" on char lists. -/
def charListLe : List Char → List Char → Bool
  | [], _ => true
  | _ :: _, [] => false
  | c :: cs, d :: ds =>
    if c = d then charListLe cs ds else decide (c.toNat < d.toNat)

/-- Code-point lexicographic "strictly smaller" on char lists. -/
def charListLt : List Char → List Char → Bool
  | [], [] => false
  | [], _ :: _ => true
  | _ :: _, [] => false
  | c :: cs, d :: ds =>
    if c = d then charListLt cs ds else decide (c.toNat < d.toNat)

/-- Model of `a.localeCompare(b) <= 0` for the titles considered:
code-point lexicographic comparison. -/
def strLeJS (a b : String) : Bool :=
  charListLe a.toList b.toList

/-- Model of `a.localeCompare(b) < 0`: code-point lexicographic strict
comparison. -/
def strLtJS (a b : String) : Bool :=
  charListLt a.toList b.toList

/-- JS `String.prototype.toLowerCase` (ASCII titles). -/
def strToLower (s : String) : String :=
  String.mk (s.toList.map Char.toLower)

/-- Stable insertion step: `x` is placed after every element `y` of the
already-sorted list for which the comparator keeps `y` before `x`
(`keepBefore y x = true`, i.e. `comparator(y, x) <= 0`). -/
def stableInsert {α : Type} (keepBefore : α → α → Bool) (x : α) :
    List α → List α
  | [] => [x]
  | y :: ys =>
    if keepBefore y x then y :: stableInsert keepBefore x ys
    else x :: y :: ys

/-- Stable sort (the unique stable sort for a comparator inducing a total
preorder, hence the exact model of ECMAScript `Array.prototype.sort`). -/
def stableSort {α : Type} (keepBefore : α → α → Bool) (l : List α) : List α :=
  l.foldl (fun acc x => stableInsert keepBefore x acc) []

/-! ## Data model (post-normalization Item, as built by parseRssItem) -/

/-- Reliability bucket, the values of the `reliability` label
("High" / "Med" / "Low"). -/
inductive Reliability : Type
  | high
  | med
  | low
deriving DecidableEq, Repr, Inhabited

/-- Value of the `paywall` label ("Yes" / "No"). -/
inductive Paywall : Type
  | yes
  | no
deriving DecidableEq, Repr, Inhabited

/-- Per-domain source weight from settings ("boost" / "normal" / "hide"). -/
inductive SourceWeight : Type
  | boost
  | normal
  | hide
deriving DecidableEq, Repr, Inhabited

/-- Paywall handling mode from settings ("allow" / "downrank" / "hide"). -/
inductive PaywallMode : Type
  | allow
  | downrank
  | hide
deriving DecidableEq, Repr, Inhabited

/-- The `labels` object attached to each item. -/
structure Labels : Type where
  reliability : Reliability
  region : Option String
  paywall : Paywall
  bias_label : Option String
deriving DecidableEq, Repr, Inhabited

/-- A normalized feed item as produced by `parseRssItem`
(build-today-json.mjs). `timestamp` is the millisecond epoch value of the
ISO string stored by the script. -/
structure Item : Type where
  url : String
  title : String
  normalized_title : String
  keywords : List String
  source_domain : String
  timestamp : Int
  snippet : String
  labels : Labels
  feed_name : String
deriving DecidableEq, Repr, Inhabited

/-- An article of a cluster in `today.json` (frontend `Article` type). -/
structure Article : Type where
  url : String
  title : String
  source_domain : String
  timestamp : Int
  snippet : String
  labels : Labels
deriving DecidableEq, Repr, Inhabited

/-- Projection used by `toTodayJson` when emitting `articles[]`. -/
def itemToArticle (it : Item) : Article :=
  { url := it.url
    title := it.title
    source_domain := it.source_domain
    timestamp := it.timestamp
    snippet := it.snippet
    labels := it.labels }

/-- The cluster record built by `clusterItems` in build-today-json.mjs. -/
structure ClusterB : Type where
  normalized_title : String
  title : String
  updated_at : Int
  keywords : List String
  articles : List Item
deriving DecidableEq, Repr, Inhabited

/-- User settings (frontend `FeedSettings`); `sourceWeights` and
`regionWeights` are the JS record objects, modelled as association lists. -/
structure FeedSettings : Type where
  storiesPerDay : Nat
  topCount : Nat
  scanCount : Nat
  minReliability : Reliability
  paywallMode : PaywallMode
  keywordMutes : List String
  topicBoosts : List String
  sourceWeights : List (String × SourceWeight)
  regionWeights : List (String × ℚ)
deriving DecidableEq, Repr, Inhabited

/-- First-match association-list lookup (JS property access `obj[key]`). -/
def lookupKey {β : Type} (k : String) : List (String × β) → Option β
  | [] => none
  | p :: ps => if p.1 = k then some p.2 else lookupKey k ps

/-! ## Normalizer (build-today-json.mjs) -/

/-- Wire-service names of the suffix-stripping regex alternation in
`normalizeTitle`. -/
def wireServiceNames : List String :=
  ["reuters", "associated press", "ap", "bbc", "guardian", "nytimes",
   "cnn", "fox", "npr", "wsj"]

/-- Test whether the regex
`[|–—-]\s*(reuters|associated press|ap|bbc|guardian|nytimes|cnn|fox|npr|wsj).*$`
matches starting at the head of the given (already lowercased) char list. -/
def suffixMatchHere (c : Char) (rest : List Char) : Bool :=
  (c = '|' || c = '–' || c = '—' || c = '-') &&
    (wireServiceNames.any (fun w =>
      w.toList.isPrefixOf ((rest.dropWhile isSpaceChar).map Char.toLower)))

/-- Drop everything from the leftmost match of the wire-service suffix
regex onward (JS non-global `replace` with an `.*$`-terminated pattern). -/
def stripWireSuffix : List Char → List Char
  | [] => []
  | c :: rest =>
    if suffixMatchHere c rest then []
    else c :: stripWireSuffix rest

/-- Characters kept by the `[^a-z0-9\s]` → space substitution
(the input is lowercased at this point). -/
def keptByNormalize (c : Char) : Bool :=
  ('a' ≤ c && c ≤ 'z') || ('0' ≤ c && c ≤ '9') || isSpaceChar c

/-- The `normalizeTitle` function of build-today-json.mjs: lowercase, strip
one trailing wire-service suffix, replace every other non-alphanumeric
character by a space, collapse whitespace runs, trim. -/
def normalizeTitle (title : String) : String :=
  let lowered := (strToLower title).toList
  let stripped := stripWireSuffix lowered
  let cleaned := stripped.map (fun c => if keptByNormalize c then c else ' ')
  String.intercalate " "
    (((String.mk cleaned).split (fun c => isSpaceChar c)).filter (fun w => w ≠ ""))

/-- The `keywordsFromTitle` function: tokens of the normalized title of
length greater than 3, capped at 8. -/
def keywordsFromTitle (title : String) : List String :=
  (((normalizeTitle title).split (fun c => c = ' ')).filter
    (fun word => word.length > 3)).take 8

/-- The `reliabilityBucket` function: numeric source score to bucket. -/
def reliabilityBucket (score : Int) : Reliability :=
  if score ≥ 80 then .high
  else if score ≥ 60 then .med
  else .low

/-- A feed descriptor from config/rss-feeds.json, as read by
`parseRssItem` (name, optional region and bias defaults). -/
structure FeedDesc : Type where
  name : String
  region : Option String
  bias_label : Option String
deriving DecidableEq, Repr, Inhabited

/-- A SourceMeta record from config/sources.json. -/
structure SourceMeta : Type where
  domain : String
  reliability_score : Int
  region : String
  tags : List String
  bias_label : Option String
deriving DecidableEq, Repr, Inhabited

/-- The `parseRssItem` function of build-today-json.mjs, taken at the point
where the four `firstMatch` regex extractions have produced the raw `url`,
`title`, `snippet` and `publishedAt` strings (an extraction that found
nothing yields `""`, exactly what `firstMatch` returns).

External engine primitives are explicit parameters: `parseDate` is the JS
date parser (`new Date(s).getTime()`, `none` for an Invalid Date), `canon`
is `canonicalUrl` and `dom` is `toDomain` (both wrap the engine `URL`
parser), and `now` is `Date.now()`. The `sourcesByDomain.get(domain)` Map
lookup is inlined over the sources array: the Map keeps the LAST record
per domain, hence `getLast?` of the matching records.

The returned value models the JS control flow: `Except.error ()` is the
`RangeError` that `new Date(publishedAt).toISOString()` throws when
`publishedAt` is non-empty but unparseable; `Except.ok none` is the
`return null` for a record lacking url or title. -/
def parseRssItem (parseDate : String → Option Int)
    (canon dom : String → String) (now : Int)
    (url title snippet publishedAt : String)
    (feed : FeedDesc) (sources : List SourceMeta) :
    Except Unit (Option Item) :=
  if url = "" ∨ title = "" then .ok none
  else
    let canonical := canon url
    let domain := dom canonical
    let source := (sources.filter (fun s => decide (s.domain = domain))).getLast?
    let reliabilityScore := (source.map (fun s => s.reliability_score)).getD 65
    let ts? : Option Int :=
      if publishedAt = "" then some now else parseDate publishedAt
    match ts? with
    | none => .error ()
    | some ts =>
      .ok (some
        { url := canonical
          title := title
          normalized_title := normalizeTitle title
          keywords := keywordsFromTitle title
          source_domain := domain
          timestamp := ts
          snippet := if snippet = "" then feed.name ++ " coverage" else snippet
          labels :=
            { reliability := reliabilityBucket reliabilityScore
              region := some ((source.map (fun s => s.region)).getD
                (feed.region.getD "Global"))
              paywall := if (source.map (fun s => s.tags.contains "paywall")).getD false
                then .yes else .no
              bias_label := some (((source.bind (fun s => s.bias_label)).orElse
                (fun _ => feed.bias_label)).getD "Center") }
          feed_name := feed.name })

/-! ## Deduplicator (build-today-json.mjs `dedupe`) -/

/-- One `Map.prototype.set` step of the `new Map(items.map(i => [i.url, i]))`
construction: an existing key keeps its position but its value is
overwritten; a new key is appended. -/
def mapInsert (m : List (String × Item)) (k : String) (v : Item) :
    List (String × Item) :=
  if m.any (fun p => p.1 = k) then
    m.map (fun p => if p.1 = k then (k, v) else p)
  else m ++ [(k, v)]

/-- The `dedupe` function: `[...new Map(items.map(i => [i.url, i])).values()]`. -/
def dedupe (items : List Item) : List Item :=
  (items.foldl (fun m it => mapInsert m it.url it) []).map (fun p => p.2)

/-! ## Clusterer (build-today-json.mjs `clusterItems`) -/

/-- The `overlapScore` function: Jaccard overlap of the two keyword lists
viewed as JS Sets; `0` when the union is empty. -/
def overlapScore (a b : List String) : ℚ :=
  let inter := ((jsSetDedup a).filter (fun x => decide (x ∈ b))).length
  let union := (jsSetDedup (a ++ b)).length
  if union = 0 then 0 else (inter : ℚ) / (union : ℚ)

/-- The cluster-match predicate inside `clusterItems`: within 24 hours of
the cluster's current `updated_at`, and similar by keyword overlap at least
0.45 or by identical normalized title. -/
def matchesCluster (cluster : ClusterB) (item : Item) : Bool :=
  let withinDay : Bool :=
    decide ((cluster.updated_at - item.timestamp).natAbs ≤ 24 * 3600000)
  let similarity := overlapScore cluster.keywords item.keywords
  withinDay && (decide (similarity ≥ 45 / 100) ||
    cluster.normalized_title = item.normalized_title)

/-- Absorption of an item by a matching cluster: `articles` gains the item,
`keywords` becomes the JS-Set union, `updated_at` advances if the item is
newer. -/
def absorb (cluster : ClusterB) (item : Item) : ClusterB :=
  { cluster with
    articles := cluster.articles ++ [item]
    keywords := jsSetDedup (cluster.keywords ++ item.keywords)
    updated_at :=
      if item.timestamp > cluster.updated_at then item.timestamp
      else cluster.updated_at }

/-- A new singleton cluster seeded from an item. -/
def seedCluster (item : Item) : ClusterB :=
  { normalized_title := item.normalized_title
    title := item.title
    updated_at := item.timestamp
    keywords := item.keywords
    articles := [item] }

/-- One step of `clusterItems`: `clusters.find(...)` takes the first
matching cluster in creation order and mutates it; otherwise a fresh
singleton cluster is pushed at the end. -/
def insertItem : List ClusterB → Item → List ClusterB
  | [], item => [seedCluster item]
  | c :: cs, item =>
    if matchesCluster c item then absorb c item :: cs
    else c :: insertItem cs item

/-- The `clusterItems` function: greedy single pass over the items in input
order. -/
def clusterItems (items : List Item) : List ClusterB :=
  items.foldl insertItem []

/-! ## Best-Item Selector (src/utils/scoring.ts) -/

/-- The `reliabilityValue` function. -/
def reliabilityValue : Reliability → ℚ
  | .high => 3
  | .med => 2
  | .low => 1

/-- The `sourceWeightValue` function. -/
def sourceWeightValue : SourceWeight → ℚ
  | .boost => 1
  | .hide => -3
  | .normal => 0

/-- Whole-word case-insensitive test for one spam word at the head of `s`,
with `prev` the character just before (the `\b` boundaries of the regex
`\b(SHOCKING|EXPLOSIVE|STUNNING|BOMBSHELL|EXCLUSIVE)\b/i`). -/
def spamWordHere (prev : Option Char) (s : List Char) : Bool :=
  ["SHOCKING", "EXPLOSIVE", "STUNNING", "BOMBSHELL", "EXCLUSIVE"].any
    (fun w =>
      ((s.take w.length).map Char.toUpper = w.toList : Bool) &&
      (match prev with
       | none => true
       | some c => !(c.isAlphanum || c = '_')) &&
      (match s.drop w.length with
       | [] => true
       | c :: _ => !(c.isAlphanum || c = '_')))

/-- Scan of the title for a whole-word spam-word match at any position. -/
def spamScan : Option Char → List Char → Bool
  | _, [] => false
  | prev, c :: rest => spamWordHere prev (c :: rest) || spamScan (some c) rest

/-- Test of `/\b(SHOCKING|EXPLOSIVE|STUNNING|BOMBSHELL|EXCLUSIVE)\b/i`. -/
def hasSpamWord (title : String) : Bool :=
  spamScan none title.toList

/-- Number of `!` characters in the title (`title.match(/!/g)`). -/
def bangCount (title : String) : Nat :=
  (title.toList.filter (fun c => c = '!')).length

/-- Test of `/^[A-Z\s]{18,}$/`: at least 18 characters, every one an
upper-case letter or whitespace. -/
def isAllCapsLong (title : String) : Bool :=
  title.toList.length ≥ 18 &&
    title.toList.all (fun c => ('A' ≤ c && c ≤ 'Z') || isSpaceChar c)

/-- The `sensationalismPenalty` function of scoring.ts, as the code
accumulates it. -/
def sensationalismPenalty (title : String) : ℚ :=
  let p : ℚ := 0
  let p := if hasSpamWord title then p + 3 / 10 else p
  let p := if bangCount title > 1 then p + 2 / 10 else p
  let p := if isAllCapsLong title then p + 3 / 10 else p
  p

/-- Freshness term of the score:
`Math.max(0, 48 - (Date.now() - timestamp) / 3_600_000) / 24`. -/
def freshnessTerm (now ts : Int) : ℚ :=
  max 0 (48 - ((now - ts : Int) : ℚ) / 3600000) / 24

/-- Resolved per-domain weight: `settings.sourceWeights[domain] ?? "normal"`. -/
def resolvedSourceWeight (s : FeedSettings) (a : Article) : SourceWeight :=
  (lookupKey a.source_domain s.sourceWeights).getD .normal

/-- Region weight of the score:
`settings.regionWeights[article.labels.region ?? "Global"] ?? 1`. -/
def regionWeightOf (s : FeedSettings) (a : Article) : ℚ :=
  (lookupKey (a.labels.region.getD "Global") s.regionWeights).getD 1

/-- Paywall penalty of the score: `-100` for a paywalled item under
paywall mode "hide", `-1` under "downrank", else `0`. -/
def paywallPenalty (s : FeedSettings) (a : Article) : ℚ :=
  if s.paywallMode = .hide ∧ a.labels.paywall = .yes then -100
  else if s.paywallMode = .downrank ∧ a.labels.paywall = .yes then -1
  else 0

/-- A scored candidate entry of `chooseBestArticle`. -/
structure ScoredEntry : Type where
  article : Article
  blocked : Bool
  score : ℚ
deriving DecidableEq, Repr, Inhabited

/-- The per-article map body of `chooseBestArticle`: score and blocked
flag of one candidate. -/
def scoreArticle (s : FeedSettings) (now : Int) (a : Article) : ScoredEntry :=
  let sourceWeight := resolvedSourceWeight s a
  let reliability := reliabilityValue a.labels.reliability
  let freshness := freshnessTerm now a.timestamp
  let sensational := sensationalismPenalty a.title
  let paywallPen := paywallPenalty s a
  let blocked : Bool :=
    decide (reliability < reliabilityValue s.minReliability) ||
    (sourceWeight = SourceWeight.hide : Bool) ||
    ((s.paywallMode = PaywallMode.hide : Bool) && (a.labels.paywall = Paywall.yes : Bool))
  let regionBoost := regionWeightOf s a
  { article := a
    blocked := blocked
    score := reliability * 3 + sourceWeightValue sourceWeight + freshness +
      regionBoost - sensational + paywallPen }

/-- Comparator model of `.sort((a, b) => b.score - a.score)`:
`y` stays before `x` when the comparator value `x.score - y.score` is
non-positive, i.e. when `x.score ≤ y.score`. -/
def scoreDescKb (y x : ScoredEntry) : Bool :=
  decide (x.score ≤ y.score)

/-- The `best_article` record of a cluster in `today.json`. -/
structure BestArticleRec : Type where
  url : String
  source_domain : String
  image_url : String
  labels : Labels
  trace_summary : String
deriving DecidableEq, Repr, Inhabited

/-- A cluster of `today.json` as the frontend reads it (`Cluster` type). -/
structure TodayCluster : Type where
  cluster_id : String
  rank_score : ℚ
  priority : String
  title : String
  topic_tags : List String
  updated_at : Int
  coverage_breadth : String
  best_article : BestArticleRec
  articles : List Article
deriving DecidableEq, Repr, Inhabited

/-- The `today.json` document (`Today` type). -/
structure Today : Type where
  date : String
  generated_at : String
  clusters : List TodayCluster
deriving DecidableEq, Repr, Inhabited

/-- Result of `chooseBestArticle`. -/
structure BestChoice : Type where
  best : Article
  trace : String
  alternatives : List (Article × String)
deriving DecidableEq, Repr, Inhabited

/-- String rendering of a reliability bucket (for trace interpolation). -/
def relStr : Reliability → String
  | .high => "High"
  | .med => "Med"
  | .low => "Low"

/-- String rendering of a paywall label. -/
def pwStr : Paywall → String
  | .yes => "Yes"
  | .no => "No"

/-- String rendering of a paywall mode. -/
def pmStr : PaywallMode → String
  | .allow => "allow"
  | .downrank => "downrank"
  | .hide => "hide"

/-- The sorted candidate list of `chooseBestArticle`
(`cluster.articles.map(...).sort((a, b) => b.score - a.score)`). -/
def scoredEntries (c : TodayCluster) (s : FeedSettings) (now : Int) :
    List ScoredEntry :=
  stableSort scoreDescKb (c.articles.map (scoreArticle s now))

/-- The result record built for the chosen entry: best article, trace text
and up to three alternatives with reasons. -/
def mkChoice (bestEntry : ScoredEntry) (scored : List ScoredEntry)
    (s : FeedSettings) : BestChoice :=
  { best := bestEntry.article
    trace :=
      if bestEntry.blocked then
        "Fallback pick: nothing passed your settings, so highest available reliability was selected."
      else
        "Best Source: " ++ bestEntry.article.source_domain ++ " (reliability " ++
        relStr bestEntry.article.labels.reliability ++ ", paywall " ++
        pwStr bestEntry.article.labels.paywall ++ ", paywall mode " ++
        pmStr s.paywallMode ++ ")."
    alternatives :=
      ((scored.filter (fun e => e.article.url ≠ bestEntry.article.url)).take 3).map
        (fun e =>
          (e.article,
           if e.blocked then
             "Blocked by current settings (reliability/paywall/source weight)."
           else
             "Scored lower due to freshness, source preference, or headline quality.")) }

/-- The `chooseBestArticle` function of scoring.ts. The JS expression
`scored.find(e => !e.blocked) ?? scored[0]` yields `undefined` on an empty
cluster, after which `bestEntry.article` throws a `TypeError`; that throw
is modelled by `none`. -/
def chooseBestArticle (c : TodayCluster) (s : FeedSettings) (now : Int) :
    Option BestChoice :=
  match (scoredEntries c s now).find? (fun e => !e.blocked),
      (scoredEntries c s now).head? with
  | some e, _ => some (mkChoice e (scoredEntries c s now) s)
  | none, some e => some (mkChoice e (scoredEntries c s now) s)
  | none, none => none

/-! ## Cluster Ranker (src/utils/ranking.ts `deriveClusters`) -/

/-- JS `Number(q.toFixed(3))`, modelled as exact rounding to the nearest
thousandth (`round` of Mathlib rounds halves up; the concrete inputs used
below are not within a half-thousandth of a tie, where the binary-double
`toFixed` could differ). -/
def round3 (q : ℚ) : ℚ :=
  (round (q * 1000) : ℤ) / 1000

/-- A derived (re-ranked) cluster as produced by `deriveClusters`. -/
structure DerivedCluster : Type where
  cluster_id : String
  rank_score : ℚ
  priority : String
  title : String
  topic_tags : List String
  updated_at : Int
  coverage_breadth : String
  best_article : BestArticleRec
  articles : List Article
  alternatives : List (Article × String)
deriving DecidableEq, Repr, Inhabited

/-- Comparator model of `deriveClusters`' `.sort((a, b) => b.rank_score -
a.rank_score)`: only the rank score is compared, with no tie-break, so a
tie keeps the input order (stable sort). -/
def rankOnlyKb (y x : DerivedCluster) : Bool :=
  decide (x.rank_score ≤ y.rank_score)

/-- The per-cluster map body of `deriveClusters`: runs the Best-Item
Selector, computes the recency/outlet/region/topic/mute rank score, and
rebuilds the cluster record. `none` models the selector throwing on an
empty cluster. -/
def deriveOne (s : FeedSettings) (now : Int) (cluster : TodayCluster) :
    Option DerivedCluster :=
  (chooseBestArticle cluster s now).map (fun r =>
    let recencyScore := max 0 (72 - ((now - cluster.updated_at : Int) : ℚ) / 3600000)
    let outletCount := (jsSetDedup (cluster.articles.map (fun a => a.source_domain))).length
    let regionSet := jsSetDedup (cluster.articles.map (fun a => a.labels.region.getD "Global"))
    let regionBoost :=
      ((regionSet.map (fun reg => (lookupKey reg s.regionWeights).getD (7 / 10))).sum) /
        (regionSet.length : ℚ)
    let topicBoost : ℚ :=
      if cluster.topic_tags.any (fun tag =>
        (s.topicBoosts.map strToLower).contains (strToLower tag)) then 2 / 5 else 0
    let muted := (s.keywordMutes.map strToLower).any
      (fun word => strContains (strToLower cluster.title) word)
    let rank :=
      recencyScore / 72 * (3 / 10) +
      ((outletCount : ℚ) * (2 / 10)) * (25 / 100) +
      regionBoost * (2 / 10) +
      topicBoost * (15 / 100) +
      (if muted then (-(8 / 10) : ℚ) else 0) * (1 / 10)
    { cluster_id := cluster.cluster_id
      rank_score := round3 rank
      priority := cluster.priority
      title := cluster.title
      topic_tags := cluster.topic_tags
      updated_at := cluster.updated_at
      coverage_breadth := cluster.coverage_breadth
      best_article :=
        { cluster.best_article with
          url := r.best.url
          source_domain := r.best.source_domain
          labels := r.best.labels
          trace_summary := r.trace }
      articles := cluster.articles
      alternatives := r.alternatives })

/-- Priority tier of `deriveClusters` by final index. -/
def derivePriority (s : FeedSettings) (i : Nat) : String :=
  if i < s.topCount then "top"
  else if i < s.topCount + s.scanCount then "scan"
  else "low"

/-- The indexed `.map((cluster, index) => ...)` that stamps priorities. -/
def stampDerivePriorities (s : FeedSettings) : Nat → List DerivedCluster → List DerivedCluster
  | _, [] => []
  | i, c :: rest =>
    { c with priority := derivePriority s i } :: stampDerivePriorities s (i + 1) rest

/-- The `deriveClusters` function of ranking.ts: score every cluster
(running the Best-Item Selector inside), sort by rank score descending
(no tie-break), truncate to `storiesPerDay`, stamp priorities. -/
def deriveClusters (data : Today) (s : FeedSettings) (now : Int) :
    Option (List DerivedCluster) :=
  (data.clusters.mapM (deriveOne s now)).map (fun derived =>
    stampDerivePriorities s 0 ((stableSort rankOnlyKb derived).take s.storiesPerDay))

/-! ## Payload builder (build-today-json.mjs `toTodayJson`, MVP-2) -/

/-- The `toCoverageBreadth` function. -/
def toCoverageBreadth (count : Nat) : String :=
  if count ≥ 6 then "Broad"
  else if count ≥ 3 then "Medium"
  else "Narrow"

/-- One ranked cluster of the output payload (`clusters[]` entry). The
`priority` field is stamped by a second map in the source; it starts out
as `""` here. -/
structure RankedOut : Type where
  cluster_id : String
  rank_score : ℚ
  title : String
  topic_tags : List String
  updated_at : Int
  coverage_breadth : String
  best_article : BestArticleRec
  articles : List Article
  priority : String
deriving DecidableEq, Repr, Inhabited

/-- The output payload (`{ date, generated_at, clusters }`). -/
structure TodayPayload : Type where
  date : String
  generated_at : String
  clusters : List RankedOut
deriving DecidableEq, Repr, Inhabited

/-- Comparator model of the best-article pick
`.sort((a, b) => (b.labels.reliability > a.labels.reliability ? 1 : -1))`:
the reliability labels are compared as strings, and the comparator value
for `(y, x)` is non-positive exactly when `x`'s label is not greater than
`y`'s. This comparator is inconsistent on equal labels; the stable
insertion model fixes one deterministic result, which is all the claims
below rely on. -/
def relStrKb (y x : Item) : Bool :=
  decide (relStr x.labels.reliability ≤ relStr y.labels.reliability)

/-- Comparator model of the ranked-cluster sort of `toTodayJson`:
`b.rank_score - a.rank_score || b.updated_at - a.updated_at ||
a.title.localeCompare(b.title)`, where `y` stays before `x` when the
comparator value for `(y, x)` is non-positive. `localeCompare` is modelled
by `strLeJS`, code-point lexicographic comparison (it agrees with the ICU
collation on the titles considered in the closed theorems). -/
def rankedBefore (y x : RankedOut) : Bool :=
  if y.rank_score = x.rank_score then
    if y.updated_at = x.updated_at then strLeJS y.title x.title
    else decide (x.updated_at < y.updated_at)
  else decide (x.rank_score < y.rank_score)

/-- The per-cluster map body of `toTodayJson`: rank score from recency and
unique outlets, best article by the reliability-string sort, payload
record assembly. `idStr` is the `Math.random().toString(36).slice(2, 9)`
token of this call. An empty cluster would make the JS `[0]` access the
fields of `undefined`; `clusterItems` never produces one, and the model
uses an inhabited default in that dead branch. -/
def toRankedOut (idStr : String) (now : Int) (cluster : ClusterB) : RankedOut :=
  let uniqueOutlets := (jsSetDedup (cluster.articles.map (fun a => a.source_domain))).length
  let recency := max 0 (72 - ((now - cluster.updated_at : Int) : ℚ) / 3600000)
  let rank := recency / 72 * (7 / 10) + (uniqueOutlets : ℚ) * (3 / 10)
  let best := ((stableSort relStrKb cluster.articles).head?).getD default
  { cluster_id := "cluster-" ++ idStr
    rank_score := round3 rank
    title := cluster.title
    topic_tags := cluster.keywords.take 3
    updated_at := cluster.updated_at
    coverage_breadth := toCoverageBreadth uniqueOutlets
    best_article :=
      { url := best.url
        source_domain := best.source_domain
        image_url := ""
        labels := best.labels
        trace_summary := "Picked " ++ best.source_domain ++
          " based on reliability and recency among " ++
          toString cluster.articles.length ++ " related reports." }
    articles := cluster.articles.map itemToArticle
    priority := "" }

/-- The indexed map over the clustered list, threading the per-call
`Math.random()` tokens as the stream `rand`. -/
def buildRanked (rand : Nat → String) (now : Int) : Nat → List ClusterB → List RankedOut
  | _, [] => []
  | i, c :: rest => toRankedOut (rand i) now c :: buildRanked rand now (i + 1) rest

/-- Priority tier of `toTodayJson` by index within the truncated list of
length `total`: the first `ceil(total * 0.3)` are "top", up to
`ceil(total * 0.7)` are "scan", the rest "low". -/
def payloadPriority (total i : Nat) : String :=
  if i < Nat.ceil ((total : ℚ) * (3 / 10)) then "top"
  else if i < Nat.ceil ((total : ℚ) * (7 / 10)) then "scan"
  else "low"

/-- The final `.map((cluster, index, arr) => ({ ...cluster, priority }))`. -/
def stampPayloadPriorities (total : Nat) : Nat → List RankedOut → List RankedOut
  | _, [] => []
  | i, c :: rest =>
    { c with priority := payloadPriority total i } :: stampPayloadPriorities total (i + 1) rest

/-- The `toTodayJson` function of build-today-json.mjs (MVP-2): dedupe,
cluster, rank, sort with the full tie-break comparator, truncate to
`maxStories`, stamp priorities. `iso` is the engine's
`Date.prototype.toISOString` (`date` is its first ten characters),
`rand` the stream of `Math.random()` tokens, `now` the current time. -/
def toTodayJson (iso : Int → String) (maxStories : Nat) (rand : Nat → String)
    (now : Int) (items : List Item) : TodayPayload :=
  let clustered := clusterItems (dedupe items)
  let rankedBase := buildRanked rand now 0 clustered
  let truncated := (stableSort rankedBefore rankedBase).take maxStories
  { date := String.mk ((iso now).toList.take 10)
    generated_at := iso now
    clusters := stampPayloadPriorities truncated.length 0 truncated }


/-! ## Specification-side definitions and invariants -/

/-- Jaccard overlap as the spec words it: intersection size over union size
of the two keyword sets, with the overlap of two empty sets defined as 0. -/
def jaccardSpec (a b : List String) : ℚ :=
  if a.toFinset ∪ b.toFinset = ∅ then 0
  else ((a.toFinset ∩ b.toFinset).card : ℚ) / ((a.toFinset ∪ b.toFinset).card : ℚ)
/-- The cluster-match condition as the claim words it: time proximity of at
most 24 hours to the cluster's current `updated_at`, and either identical
normalized titles or spec-Jaccard overlap at least 0.45. -/
def specMatch (cluster : ClusterB) (item : Item) : Bool :=
  decide ((cluster.updated_at - item.timestamp).natAbs ≤ 24 * 3600000) &&
    decide (cluster.normalized_title = item.normalized_title ∨
      jaccardSpec cluster.keywords item.keywords ≥ 45 / 100)
/-- One clustering step as the claim words it: the first existing cluster
(in creation order) satisfying `specMatch` absorbs the item; if none
matches, a new singleton cluster seeded from the item is appended. -/
def specInsert (cs : List ClusterB) (item : Item) : List ClusterB :=
  match cs.findIdx? (fun c => specMatch c item) with
  | some i => cs.set i (absorb (cs.getD i default) item)
  | none => cs ++ [seedCluster item]
/-- Concatenation of every cluster's member articles. -/
def joinArticles (cs : List ClusterB) : List Item :=
  (cs.map (fun c => c.articles)).flatten
/-- The updated-at invariant of one cluster: `updated_at` is a member
timestamp and bounds every member timestamp. -/
def UpdIsMax (c : ClusterB) : Prop :=
  c.updated_at ∈ c.articles.map (fun a => a.timestamp) ∧
    ∀ a ∈ c.articles, a.timestamp ≤ c.updated_at
/-- Well-formedness of the association list modelling the Map: keys are
distinct and each stored item's url is its key. -/
def KeysOk (m : List (String × Item)) : Prop :=
  (m.map (fun p => p.1)).Nodup ∧ ∀ p ∈ m, p.2.url = p.1
/-- Erase the only random-dependent field of a ranked output cluster. -/
def stripId (c : RankedOut) : RankedOut :=
  { c with cluster_id := "" }

/-- Two ranked clusters that agree except possibly on `cluster_id`. -/
def SameExceptId (a b : RankedOut) : Prop :=
  stripId a = stripId b

/-- The payload with every cluster's random-dependent `cluster_id` erased. -/
def stripPayloadIds (p : TodayPayload) : TodayPayload :=
  { p with clusters := p.clusters.map stripId }

/-! ## Concrete sample inputs (used by witnesses and counterexamples) -/

def labelsHighGlobal : Labels :=
  { reliability := .high
    region := some "Global"
    paywall := .no
    bias_label := none }

def labelsLowUS : Labels :=
  { reliability := .low
    region := some "US"
    paywall := .no
    bias_label := none }

def labelsMedGlobal : Labels :=
  { reliability := .med
    region := some "Global"
    paywall := .no
    bias_label := none }

def labelsHighPaywalled : Labels :=
  { reliability := .high
    region := some "Global"
    paywall := .yes
    bias_label := none }

/-- A 48-hours-old high-reliability article from a domain the settings hide. -/
def articleHighA : Article :=
  { url := "https://a.com/1"
    title := "aa"
    source_domain := "a.com"
    timestamp := 0
    snippet := ""
    labels := labelsHighGlobal }

/-- A fresh low-reliability article from a boosted domain in a weighted
region. -/
def articleLowB : Article :=
  { url := "https://b.com/1"
    title := "bb"
    source_domain := "b.com"
    timestamp := 172800000
    snippet := ""
    labels := labelsLowUS }

/-- A cluster in which (under `fallbackSettings` at time 172800000) every
candidate is blocked and the low-reliability candidate outscores the
high-reliability one (8 versus 7). -/
def fallbackCluster : TodayCluster :=
  { cluster_id := "c1"
    rank_score := 0
    priority := "top"
    title := "T"
    topic_tags := []
    updated_at := 0
    coverage_breadth := "Narrow"
    best_article := default
    articles := [articleHighA, articleLowB] }

/-- Settings blocking both candidates of `fallbackCluster`: the floor Med
blocks the Low item, the hide weight blocks the a.com item. -/
def fallbackSettings : FeedSettings :=
  { storiesPerDay := 10
    topCount := 1
    scanCount := 1
    minReliability := .med
    paywallMode := .allow
    keywordMutes := []
    topicBoosts := []
    sourceWeights := [("a.com", .hide), ("b.com", .boost)]
    regionWeights := [("US", 2)] }

def sampleItem : Item :=
  { url := "https://s.com/1"
    title := "Sample Story"
    normalized_title := "sample story"
    keywords := ["sample", "story"]
    source_domain := "s.com"
    timestamp := 1000
    snippet := "s"
    labels := labelsMedGlobal
    feed_name := "Feed S" }

/-- First of two items with the same canonical URL. -/
def dupItemA : Item :=
  { sampleItem with title := "First Copy", feed_name := "Feed 1" }

/-- Second of two items with the same canonical URL; `dedupe` keeps this
one. -/
def dupItemB : Item :=
  { sampleItem with title := "Second Copy", feed_name := "Feed 2" }

def articleMed : Article :=
  { url := "https://m.com/1"
    title := "mm"
    source_domain := "m.com"
    timestamp := 0
    snippet := ""
    labels := labelsMedGlobal }

def bestMedRec : BestArticleRec :=
  { url := "https://m.com/1"
    source_domain := "m.com"
    image_url := ""
    labels := labelsMedGlobal
    trace_summary := "t" }

/-- Cluster titled "B Story"; identical to `tieClusterA` except for the
title and id, so both get the same rank score in `deriveClusters`. -/
def tieClusterB : TodayCluster :=
  { cluster_id := "cb"
    rank_score := 0
    priority := "top"
    title := "B Story"
    topic_tags := []
    updated_at := 0
    coverage_breadth := "Narrow"
    best_article := bestMedRec
    articles := [articleMed] }

def tieClusterA : TodayCluster :=
  { tieClusterB with cluster_id := "ca", title := "A Story" }

def tieSettings : FeedSettings :=
  { storiesPerDay := 5
    topCount := 1
    scanCount := 1
    minReliability := .low
    paywallMode := .allow
    keywordMutes := []
    topicBoosts := []
    sourceWeights := []
    regionWeights := [] }

def tieToday : Today :=
  { date := "2026-01-01"
    generated_at := "g"
    clusters := [tieClusterB, tieClusterA] }

/-- Payload cluster scoring 0.812, titled "B Story". -/
def tieRankedB : RankedOut :=
  { cluster_id := "rb"
    rank_score := 812 / 1000
    title := "B Story"
    topic_tags := []
    updated_at := 0
    coverage_breadth := "Narrow"
    best_article := bestMedRec
    articles := [articleMed]
    priority := "" }

/-- Payload cluster scoring 0.812, titled "A Story". -/
def tieRankedA : RankedOut :=
  { tieRankedB with cluster_id := "ra", title := "A Story" }

def isoConst : Int → String := fun _ => "2026-01-01T00:00:00.000Z"

def randTokensA : Nat → String := fun _ => "aaaaaaa"

def randTokensB : Nat → String := fun _ => "bbbbbbb"

def singleItem : Item :=
  { url := "https://m.com/1"
    title := "mm"
    normalized_title := "mm"
    keywords := []
    source_domain := "m.com"
    timestamp := 0
    snippet := ""
    labels := labelsMedGlobal
    feed_name := "Feed M" }

def pwArticle : Article :=
  { url := "https://p.com/1"
    title := "pp"
    source_domain := "p.com"
    timestamp := 0
    snippet := ""
    labels := labelsHighPaywalled }

def pwHideSettings : FeedSettings :=
  { fallbackSettings with paywallMode := .hide, sourceWeights := [] }

def pwDownSettings : FeedSettings :=
  { fallbackSettings with paywallMode := .downrank, sourceWeights := [] }

/-- A date parser that fails on every string (stand-in for the engine
parser at inputs it cannot parse, such as "not a date"). -/
def parseDateNone : String → Option Int := fun _ => none

def sampleFeed : FeedDesc :=
  { name := "Feed X"
    region := some "Global"
    bias_label := none }

/-! ## Lemmas about the JS primitives -/

theorem mem_stableInsert {α : Type} (kb : α → α → Bool) (x : α) (l : List α)
    (a : α) : a ∈ stableInsert kb x l ↔ a = x ∨ a ∈ l := by
  induction l with
  | nil => simp [stableInsert]
  | cons y ys ih =>
    by_cases h : kb y x = true
    · simp only [stableInsert, h, if_true, List.mem_cons, ih]
      tauto
    · rw [stableInsert, if_neg h]
      exact List.mem_cons

theorem length_stableInsert {α : Type} (kb : α → α → Bool) (x : α) (l : List α) :
    (stableInsert kb x l).length = l.length + 1 := by
  induction l with
  | nil => rfl
  | cons y ys ih =>
    by_cases h : kb y x = true
    · simp [stableInsert, h, ih]
    · simp [stableInsert, h]

theorem pairwise_stableInsert {α : Type} (kb : α → α → Bool)
    (htot : ∀ a b, kb a b = true ∨ kb b a = true)
    (htrans : ∀ a b c, kb a b = true → kb b c = true → kb a c = true)
    (x : α) (l : List α) (hl : l.Pairwise (fun a b => kb a b = true)) :
    (stableInsert kb x l).Pairwise (fun a b => kb a b = true) := by
  induction l with
  | nil => simp [stableInsert]
  | cons y ys ih =>
    rcases List.pairwise_cons.mp hl with ⟨hy, hys⟩
    by_cases h : kb y x = true
    · simp only [stableInsert, h, if_true]
      refine List.pairwise_cons.mpr ⟨?_, ih hys⟩
      intro a ha
      rcases (mem_stableInsert kb x ys a).mp ha with rfl | ha
      · exact h
      · exact hy a ha
    · simp only [stableInsert, h, if_false]
      refine List.pairwise_cons.mpr ⟨?_, hl⟩
      intro a ha
      have hxy : kb x y = true := (htot x y).resolve_right (fun hc => h hc)
      rcases List.mem_cons.mp ha with rfl | ha
      · exact hxy
      · exact htrans x y a hxy (hy a ha)

theorem mem_stableSort {α : Type} (kb : α → α → Bool) (l : List α) (a : α) :
    a ∈ stableSort kb l ↔ a ∈ l := by
  suffices h : ∀ (l acc : List α), a ∈ l.foldl (fun acc x => stableInsert kb x acc) acc ↔
      a ∈ acc ∨ a ∈ l by
    have := h l []
    simpa [stableSort] using this
  intro l
  induction l with
  | nil => simp
  | cons x xs ih =>
    intro acc
    simp only [List.foldl_cons, ih, mem_stableInsert, List.mem_cons]
    tauto

theorem length_stableSort {α : Type} (kb : α → α → Bool) (l : List α) :
    (stableSort kb l).length = l.length := by
  suffices h : ∀ (l acc : List α), (l.foldl (fun acc x => stableInsert kb x acc) acc).length =
      acc.length + l.length by
    have := h l []
    simpa [stableSort] using this
  intro l
  induction l with
  | nil => simp
  | cons x xs ih =>
    intro acc
    simp only [List.foldl_cons, ih, length_stableInsert, List.length_cons]
    omega

theorem pairwise_stableSort {α : Type} (kb : α → α → Bool)
    (htot : ∀ a b, kb a b = true ∨ kb b a = true)
    (htrans : ∀ a b c, kb a b = true → kb b c = true → kb a c = true)
    (l : List α) : (stableSort kb l).Pairwise (fun a b => kb a b = true) := by
  suffices h : ∀ (l acc : List α), acc.Pairwise (fun a b => kb a b = true) →
      (l.foldl (fun acc x => stableInsert kb x acc) acc).Pairwise
        (fun a b => kb a b = true) by
    exact h l [] List.Pairwise.nil
  intro l
  induction l with
  | nil => exact fun acc h => h
  | cons x xs ih =>
    intro acc hacc
    exact ih _ (pairwise_stableInsert kb htot htrans x acc hacc)

theorem mem_jsSetDedup (l : List String) (x : String) :
    x ∈ jsSetDedup l ↔ x ∈ l := by
  suffices h : ∀ (l acc : List String),
      (x ∈ l.foldl (fun acc x => if x ∈ acc then acc else acc ++ [x]) acc ↔
        x ∈ acc ∨ x ∈ l) by
    have := h l []
    simpa [jsSetDedup] using this
  intro l
  induction l with
  | nil => simp
  | cons y ys ih =>
    intro acc
    by_cases hy : y ∈ acc
    · simp only [List.foldl_cons, hy, if_true, ih, List.mem_cons]
      constructor
      · tauto
      · rintro (h | rfl | h) <;> tauto
    · simp only [List.foldl_cons, hy, if_false, ih, List.mem_append,
        List.mem_singleton, List.mem_cons]
      tauto

theorem nodup_jsSetDedup (l : List String) : (jsSetDedup l).Nodup := by
  suffices h : ∀ (l acc : List String), acc.Nodup →
      (l.foldl (fun acc x => if x ∈ acc then acc else acc ++ [x]) acc).Nodup by
    exact h l [] List.nodup_nil
  intro l
  induction l with
  | nil => exact fun acc h => h
  | cons y ys ih =>
    intro acc hacc
    by_cases hy : y ∈ acc
    · simpa [hy] using ih acc hacc
    · simp only [List.foldl_cons, hy, if_false]
      exact ih _ ((List.nodup_append_comm.mpr (by simpa using ⟨hy, hacc⟩)))

theorem head?_mem {α : Type} {l : List α} {a : α} (h : l.head? = some a) :
    a ∈ l := by
  cases l with
  | nil => simp at h
  | cons x xs =>
    simp only [List.head?_cons, Option.some.injEq] at h
    exact h ▸ List.mem_cons_self x xs

/-! ## The Clusterer against the spec's wording -/


theorem toFinset_jsSetDedup (l : List String) :
    (jsSetDedup l).toFinset = l.toFinset := by
  ext x
  simp [List.mem_toFinset, mem_jsSetDedup]

theorem length_jsSetDedup_eq_card (l : List String) :
    (jsSetDedup l).length = l.toFinset.card := by
  rw [← toFinset_jsSetDedup l, List.toFinset_card_of_nodup (nodup_jsSetDedup l)]

theorem length_filter_jsSetDedup_eq_card_inter (a b : List String) :
    ((jsSetDedup a).filter (fun x => decide (x ∈ b))).length =
      (a.toFinset ∩ b.toFinset).card := by
  have hnd : ((jsSetDedup a).filter (fun x => decide (x ∈ b))).Nodup :=
    (nodup_jsSetDedup a).filter _
  rw [← List.toFinset_card_of_nodup hnd]
  congr 1
  ext x
  simp [List.mem_toFinset, List.mem_filter, mem_jsSetDedup, Finset.mem_inter]

/-- The code's `overlapScore` computes exactly the spec's Jaccard overlap. -/
theorem overlapScore_eq_jaccardSpec (a b : List String) :
    overlapScore a b = jaccardSpec a b := by
  unfold overlapScore jaccardSpec
  rw [length_filter_jsSetDedup_eq_card_inter, length_jsSetDedup_eq_card,
    List.toFinset_append]
  by_cases h : a.toFinset ∪ b.toFinset = ∅
  · simp [h]
  · have hc : (a.toFinset ∪ b.toFinset).card ≠ 0 := by
      simpa [Finset.card_eq_zero] using h
    simp [h, hc]


theorem matchesCluster_eq_specMatch (cluster : ClusterB) (item : Item) :
    matchesCluster cluster item = specMatch cluster item := by
  unfold matchesCluster specMatch
  rw [overlapScore_eq_jaccardSpec]
  by_cases h1 : (cluster.updated_at - item.timestamp).natAbs ≤ 24 * 3600000 <;>
    by_cases h2 : jaccardSpec cluster.keywords item.keywords ≥ 45 / 100 <;>
    by_cases h3 : cluster.normalized_title = item.normalized_title <;>
    simp [h1, h2, h3]


theorem findIdx?_start_succ {α : Type} (p : α → Bool) (l : List α) (i : Nat) :
    l.findIdx? p (i + 1) = (l.findIdx? p i).map (fun j => j + 1) := by
  induction l generalizing i with
  | nil => simp [List.findIdx?]
  | cons x xs ih =>
    by_cases h : p x = true
    · simp [List.findIdx?_cons, h]
    · simp only [List.findIdx?_cons, h, if_false, Bool.false_eq_true, ih]

/-- The code's insertion step agrees with the spec's first-match
formulation. -/
theorem insertItem_eq_specInsert (cs : List ClusterB) (item : Item) :
    insertItem cs item = specInsert cs item := by
  induction cs with
  | nil => rfl
  | cons c cs ih =>
    by_cases h : matchesCluster c item = true
    · have hs : specMatch c item = true := matchesCluster_eq_specMatch c item ▸ h
      simp [insertItem, specInsert, h, hs, List.findIdx?_cons]
    · have hs : ¬ specMatch c item = true := fun hc =>
        h (matchesCluster_eq_specMatch c item ▸ hc)
      rw [insertItem, if_neg h, ih]
      unfold specInsert
      rw [List.findIdx?_cons, if_neg hs, findIdx?_start_succ]
      cases hidx : cs.findIdx? (fun c => specMatch c item) with
      | none => simp
      | some j => simp [List.set_cons_succ, List.getD_cons_succ]

/-! ## Partition and updated-at invariants of the Clusterer -/


theorem insertItem_nil (item : Item) :
    insertItem [] item = [seedCluster item] := rfl

theorem insertItem_cons (c0 : ClusterB) (cs : List ClusterB) (item : Item) :
    insertItem (c0 :: cs) item =
      if matchesCluster c0 item then absorb c0 item :: cs
      else c0 :: insertItem cs item := rfl

theorem joinArticles_cons (c : ClusterB) (cs : List ClusterB) :
    joinArticles (c :: cs) = c.articles ++ joinArticles cs := by
  simp [joinArticles]

theorem joinArticles_insertItem (cs : List ClusterB) (item : Item) :
    (joinArticles (insertItem cs item)).Perm (joinArticles cs ++ [item]) := by
  induction cs with
  | nil =>
    rw [insertItem_nil, joinArticles_cons]
    exact List.Perm.refl _
  | cons c cs ih =>
    by_cases h : matchesCluster c item = true
    · rw [insertItem_cons, if_pos h, joinArticles_cons, joinArticles_cons]
      have habs : (absorb c item).articles = c.articles ++ [item] := rfl
      rw [habs, List.append_assoc, List.append_assoc]
      exact List.Perm.append_left _ List.perm_append_comm
    · rw [insertItem_cons, if_neg h, joinArticles_cons, joinArticles_cons,
        List.append_assoc]
      exact List.Perm.append_left _ ih

theorem joinArticles_foldl (items : List Item) :
    ∀ cs : List ClusterB,
      (joinArticles (items.foldl insertItem cs)).Perm (joinArticles cs ++ items) := by
  induction items with
  | nil =>
    intro cs
    rw [List.foldl_nil, List.append_nil]
  | cons item rest ih =>
    intro cs
    have h1 := ih (insertItem cs item)
    have h2 : (joinArticles (insertItem cs item) ++ rest).Perm
        ((joinArticles cs ++ [item]) ++ rest) :=
      (joinArticles_insertItem cs item).append_right rest
    have h3 := h1.trans h2
    rw [List.append_assoc] at h3
    exact h3

theorem articles_ne_nil_insertItem (cs : List ClusterB) (item : Item)
    (h : ∀ c ∈ cs, c.articles ≠ []) :
    ∀ c ∈ insertItem cs item, c.articles ≠ [] := by
  induction cs with
  | nil =>
    intro c hc
    rw [insertItem_nil, List.mem_singleton] at hc
    subst hc
    simp [seedCluster]
  | cons c0 cs ih =>
    intro c hc
    by_cases hm : matchesCluster c0 item = true
    · rw [insertItem_cons, if_pos hm, List.mem_cons] at hc
      rcases hc with rfl | hc
      · simp [absorb]
      · exact h c (List.mem_cons_of_mem c0 hc)
    · rw [insertItem_cons, if_neg hm, List.mem_cons] at hc
      rcases hc with rfl | hc
      · exact h _ (List.mem_cons_self _ _)
      · exact ih (fun c hc => h c (List.mem_cons_of_mem c0 hc)) c hc

theorem articles_ne_nil_foldl (items : List Item) :
    ∀ cs : List ClusterB, (∀ c ∈ cs, c.articles ≠ []) →
      ∀ c ∈ items.foldl insertItem cs, c.articles ≠ [] := by
  induction items with
  | nil => exact fun cs h => h
  | cons item rest ih =>
    intro cs h
    exact ih _ (articles_ne_nil_insertItem cs item h)


theorem updIsMax_absorb (c : ClusterB) (item : Item) (h : UpdIsMax c) :
    UpdIsMax (absorb c item) := by
  rcases h with ⟨hmem, hb⟩
  constructor
  · by_cases hgt : item.timestamp > c.updated_at
    · simp [absorb, hgt]
    · simp only [absorb, if_neg hgt, List.map_append, List.mem_append]
      exact Or.inl hmem
  · intro a ha
    simp only [absorb, List.mem_append, List.mem_singleton] at ha
    by_cases hgt : item.timestamp > c.updated_at
    · simp only [absorb, if_pos hgt]
      rcases ha with ha | rfl
      · exact le_of_lt (lt_of_le_of_lt (hb a ha) hgt)
      · exact le_refl _
    · simp only [absorb, if_neg hgt]
      rcases ha with ha | rfl
      · exact hb a ha
      · exact le_of_not_lt hgt

theorem updIsMax_seed (item : Item) : UpdIsMax (seedCluster item) := by
  constructor
  · simp [seedCluster]
  · intro a ha
    simp only [seedCluster, List.mem_singleton] at ha
    simp [seedCluster, ha]

theorem updIsMax_insertItem (cs : List ClusterB) (item : Item)
    (h : ∀ c ∈ cs, UpdIsMax c) : ∀ c ∈ insertItem cs item, UpdIsMax c := by
  induction cs with
  | nil =>
    intro c hc
    rw [insertItem_nil, List.mem_singleton] at hc
    exact hc ▸ updIsMax_seed item
  | cons c0 cs ih =>
    intro c hc
    by_cases hm : matchesCluster c0 item = true
    · rw [insertItem_cons, if_pos hm, List.mem_cons] at hc
      rcases hc with rfl | hc
      · exact updIsMax_absorb c0 item (h c0 (List.mem_cons_self c0 cs))
      · exact h c (List.mem_cons_of_mem c0 hc)
    · rw [insertItem_cons, if_neg hm, List.mem_cons] at hc
      rcases hc with rfl | hc
      · exact h _ (List.mem_cons_self _ _)
      · exact ih (fun c hc => h c (List.mem_cons_of_mem c0 hc)) c hc

theorem updIsMax_foldl (items : List Item) :
    ∀ cs : List ClusterB, (∀ c ∈ cs, UpdIsMax c) →
      ∀ c ∈ items.foldl insertItem cs, UpdIsMax c := by
  induction items with
  | nil => exact fun cs h => h
  | cons item rest ih =>
    intro cs h
    exact ih _ (updIsMax_insertItem cs item h)

/-! ## Deduplicator lemmas (JS Map semantics) -/

theorem lookupKey_nil {β : Type} (k : String) :
    lookupKey (β := β) k [] = none := rfl

theorem lookupKey_cons {β : Type} (k : String) (p : String × β)
    (ps : List (String × β)) :
    lookupKey k (p :: ps) = if p.1 = k then some p.2 else lookupKey k ps := rfl

theorem lookupKey_append {β : Type} (k : String) (m m2 : List (String × β)) :
    lookupKey k (m ++ m2) = (lookupKey k m).or (lookupKey k m2) := by
  induction m with
  | nil => rfl
  | cons p ps ih =>
    by_cases h : p.1 = k
    · simp [lookupKey_cons, h]
    · simp [lookupKey_cons, h, ih]

theorem lookupKey_map_replace (m : List (String × Item)) (k : String) (v : Item)
    (h : ∃ p ∈ m, p.1 = k) :
    lookupKey k (m.map (fun p => if p.1 = k then (k, v) else p)) = some v := by
  induction m with
  | nil => simp at h
  | cons p ps ih =>
    by_cases hp : p.1 = k
    · simp [lookupKey_cons, hp]
    · have h2 : ∃ q ∈ ps, q.1 = k := by
        rcases h with ⟨q, hq, hqk⟩
        rcases List.mem_cons.mp hq with rfl | hq
        · exact absurd hqk hp
        · exact ⟨q, hq, hqk⟩
      simp [lookupKey_cons, hp, ih h2]

theorem lookupKey_map_replace_ne (m : List (String × Item)) (k k2 : String)
    (v : Item) (hne : k ≠ k2) :
    lookupKey k (m.map (fun p => if p.1 = k2 then (k2, v) else p)) =
      lookupKey k m := by
  induction m with
  | nil => rfl
  | cons p ps ih =>
    by_cases hp : p.1 = k2
    · have hpk : ¬ p.1 = k := fun hc => hne (hc ▸ hp.symm ▸ rfl)
      have hk2 : ¬ k2 = k := fun hc => hne hc.symm
      simp [lookupKey_cons, hp, hpk, hk2, ih]
    · by_cases hk : p.1 = k <;> simp [lookupKey_cons, hp, hk, hne, ih]

theorem lookupKey_eq_none_of_forall (k : String) (m : List (String × Item))
    (h : ∀ p ∈ m, p.1 ≠ k) : lookupKey k m = none := by
  induction m with
  | nil => rfl
  | cons p ps ih =>
    have hp := h p (List.mem_cons_self p ps)
    simp only [lookupKey_cons, hp, if_false]
    exact ih (fun q hq => h q (List.mem_cons_of_mem p hq))

theorem lookupKey_mapInsert_self (m : List (String × Item)) (k : String)
    (v : Item) : lookupKey k (mapInsert m k v) = some v := by
  unfold mapInsert
  by_cases h : m.any (fun p => p.1 = k) = true
  · rw [if_pos h]
    apply lookupKey_map_replace
    rcases List.any_eq_true.mp h with ⟨p, hp, hpk⟩
    exact ⟨p, hp, of_decide_eq_true hpk⟩
  · rw [if_neg h, lookupKey_append]
    have hnone : lookupKey k m = none := by
      apply lookupKey_eq_none_of_forall
      intro p hp hpk
      exact h (List.any_eq_true.mpr ⟨p, hp, decide_eq_true hpk⟩)
    simp [hnone, lookupKey_cons]

theorem lookupKey_mapInsert_ne (m : List (String × Item)) (k k2 : String)
    (v : Item) (hne : k ≠ k2) :
    lookupKey k (mapInsert m k2 v) = lookupKey k m := by
  unfold mapInsert
  by_cases h : m.any (fun p => p.1 = k2) = true
  · rw [if_pos h]
    exact lookupKey_map_replace_ne m k k2 v hne
  · rw [if_neg h, lookupKey_append]
    have hk2 : ¬ k2 = k := fun hc => hne hc.symm
    simp [lookupKey_cons, lookupKey_nil, hk2, Option.or_none]

theorem getLast?_cons_or {α : Type} (a : α) (l : List α) :
    (a :: l).getLast? = l.getLast?.or (some a) := by
  induction l generalizing a with
  | nil => rfl
  | cons b l ih =>
    rw [List.getLast?_cons_cons, ih b]
    cases hl : l.getLast? with
    | none => rfl
    | some c => rfl

/-- The Map built by `dedupe`, looked up at any url `k`, holds the LAST
item of the input whose url is `k` (later `set` calls overwrite the stored
value), composed after whatever the initial map held. -/
theorem dedupe_lookup (items : List Item) :
    ∀ (m : List (String × Item)) (k : String),
      lookupKey k (items.foldl (fun m it => mapInsert m it.url it) m) =
        ((items.filter (fun x => decide (x.url = k))).getLast?).or
          (lookupKey k m) := by
  induction items with
  | nil => intro m k; rfl
  | cons it rest ih =>
    intro m k
    rw [List.foldl_cons, ih]
    by_cases h : it.url = k
    · have hfil : List.filter (fun x => decide (x.url = k)) (it :: rest) =
          it :: List.filter (fun x => decide (x.url = k)) rest :=
        List.filter_cons_of_pos (decide_eq_true h)
      rw [hfil, getLast?_cons_or]
      subst h
      rw [lookupKey_mapInsert_self, Option.or_assoc]
      have hsome : (some it).or (lookupKey it.url m) = some it := rfl
      rw [hsome]
    · have hfil : List.filter (fun x => decide (x.url = k)) (it :: rest) =
          List.filter (fun x => decide (x.url = k)) rest :=
        List.filter_cons_of_neg (by simpa using h)
      rw [hfil, lookupKey_mapInsert_ne m k it.url it (fun hc => h hc.symm)]

theorem map_fst_mapInsert (m : List (String × Item)) (k : String) (v : Item) :
    (mapInsert m k v).map (fun p => p.1) =
      if k ∈ m.map (fun p => p.1) then m.map (fun p => p.1)
      else m.map (fun p => p.1) ++ [k] := by
  have hmem : (m.any (fun p => p.1 = k) = true) ↔ k ∈ m.map (fun p => p.1) := by
    rw [List.any_eq_true]
    constructor
    · rintro ⟨p, hp, hpk⟩
      exact List.mem_map.mpr ⟨p, hp, of_decide_eq_true hpk⟩
    · intro hk
      rcases List.mem_map.mp hk with ⟨p, hp, hpk⟩
      exact ⟨p, hp, decide_eq_true hpk⟩
  unfold mapInsert
  by_cases h : m.any (fun p => p.1 = k) = true
  · rw [if_pos h, if_pos (hmem.mp h), List.map_map]
    apply List.map_congr_left
    intro p hp
    by_cases hpk : p.1 = k
    · simp [Function.comp, hpk]
    · simp [Function.comp, hpk]
  · rw [if_neg h, if_neg (fun hc => h (hmem.mpr hc)), List.map_append]
    rfl

/-- The key order of the Map is first-occurrence order of the urls. -/
theorem dedupe_keys (items : List Item) :
    ∀ m : List (String × Item),
      (items.foldl (fun m it => mapInsert m it.url it) m).map (fun p => p.1) =
        (items.map (fun it => it.url)).foldl
          (fun acc x => if x ∈ acc then acc else acc ++ [x])
          (m.map (fun p => p.1)) := by
  induction items with
  | nil => intro m; rfl
  | cons it rest ih =>
    intro m
    rw [List.foldl_cons, List.map_cons, List.foldl_cons, ih, map_fst_mapInsert]


theorem keysOk_mapInsert (m : List (String × Item)) (it : Item)
    (h : KeysOk m) : KeysOk (mapInsert m it.url it) := by
  rcases h with ⟨hnd, hok⟩
  constructor
  · rw [map_fst_mapInsert]
    by_cases hk : it.url ∈ m.map (fun p => p.1)
    · rwa [if_pos hk]
    · rw [if_neg hk, List.nodup_append]
      refine ⟨hnd, List.nodup_singleton _, ?_⟩
      intro a ha hb
      rw [List.mem_singleton] at hb
      exact hk (hb ▸ ha)
  · intro p hp
    unfold mapInsert at hp
    by_cases hany : m.any (fun q => q.1 = it.url) = true
    · rw [if_pos hany] at hp
      rcases List.mem_map.mp hp with ⟨q, hq, hqp⟩
      by_cases hq2 : q.1 = it.url
      · rw [if_pos hq2] at hqp
        rw [← hqp]
      · rw [if_neg hq2] at hqp
        exact hqp ▸ hok q hq
    · rw [if_neg hany] at hp
      rcases List.mem_append.mp hp with hp | hp
      · exact hok p hp
      · rw [List.mem_singleton.mp hp]

theorem keysOk_foldl (items : List Item) :
    ∀ m : List (String × Item), KeysOk m →
      KeysOk (items.foldl (fun m it => mapInsert m it.url it) m) := by
  induction items with
  | nil => exact fun m h => h
  | cons it rest ih =>
    intro m h
    exact ih _ (keysOk_mapInsert m it h)

theorem lookupKey_eq_of_mem (m : List (String × Item)) (p : String × Item)
    (hm : p ∈ m) (hnd : (m.map (fun q => q.1)).Nodup) :
    lookupKey p.1 m = some p.2 := by
  induction m with
  | nil => simp at hm
  | cons q qs ih =>
    rcases List.mem_cons.mp hm with rfl | hm
    · simp [lookupKey_cons]
    · have hnd2 : (List.map (fun q => q.1) (q :: qs)).Nodup := hnd
      rw [List.map_cons, List.nodup_cons] at hnd2
      have hq1 : ¬ q.1 = p.1 := by
        intro hc
        apply hnd2.1
        rw [hc]
        exact List.mem_map.mpr ⟨p, hm, rfl⟩
      rw [lookupKey_cons, if_neg hq1]
      exact ih hm hnd2.2

/-! ## Comparator order lemmas -/

theorem charListLe_total : ∀ a b : List Char,
    charListLe a b = true ∨ charListLe b a = true := by
  intro a
  induction a with
  | nil => intro b; left; rfl
  | cons c cs ih =>
    intro b
    cases b with
    | nil => right; rfl
    | cons d ds =>
      by_cases h : c = d
      · subst h
        rw [charListLe, if_pos rfl, charListLe, if_pos rfl]
        exact ih ds
      · have hv : c.toNat ≠ d.toNat := fun hc => h (Char.ext (UInt32.toNat.inj hc))
        rcases lt_or_gt_of_ne hv with hlt | hgt
        · left
          rw [charListLe, if_neg h]
          exact decide_eq_true hlt
        · right
          rw [charListLe, if_neg (fun hc => h hc.symm)]
          exact decide_eq_true hgt

theorem charListLe_total_str (a b : String) :
    strLeJS a b = true ∨ strLeJS b a = true :=
  charListLe_total a.toList b.toList

theorem charListLe_trans : ∀ a b c : List Char,
    charListLe a b = true → charListLe b c = true → charListLe a c = true := by
  intro a
  induction a with
  | nil => intro b c h1 h2; rfl
  | cons x xs ih =>
    intro b c h1 h2
    cases b with
    | nil => exact absurd h1 (by rw [charListLe]; simp)
    | cons y ys =>
      cases c with
      | nil => exact absurd h2 (by rw [charListLe]; simp)
      | cons z zs =>
        by_cases hxy : x = y
        · subst hxy
          rw [charListLe, if_pos rfl] at h1
          by_cases hyz : x = z
          · subst hyz
            rw [charListLe, if_pos rfl] at h2 ⊢
            exact ih ys zs h1 h2
          · rw [charListLe, if_neg hyz] at h2 ⊢
            exact h2
        · rw [charListLe, if_neg hxy] at h1
          have hv1 : x.toNat < y.toNat := of_decide_eq_true h1
          by_cases hyz : y = z
          · subst hyz
            rw [charListLe, if_neg hxy]
            exact decide_eq_true hv1
          · rw [charListLe, if_neg hyz] at h2
            have hv2 : y.toNat < z.toNat := of_decide_eq_true h2
            have hvz : x.toNat < z.toNat := lt_trans hv1 hv2
            have hxz : ¬ x = z := fun hc => absurd (hc ▸ hvz) (lt_irrefl _)
            rw [charListLe, if_neg hxz]
            exact decide_eq_true hvz

theorem scoreDescKb_total (a b : ScoredEntry) :
    scoreDescKb a b = true ∨ scoreDescKb b a = true := by
  unfold scoreDescKb
  rcases le_total a.score b.score with h | h
  · right; exact decide_eq_true h
  · left; exact decide_eq_true h

theorem scoreDescKb_trans (a b c : ScoredEntry)
    (h1 : scoreDescKb a b = true) (h2 : scoreDescKb b c = true) :
    scoreDescKb a c = true := by
  unfold scoreDescKb at h1 h2 ⊢
  exact decide_eq_true (le_trans (of_decide_eq_true h2) (of_decide_eq_true h1))

theorem rankOnlyKb_total (a b : DerivedCluster) :
    rankOnlyKb a b = true ∨ rankOnlyKb b a = true := by
  unfold rankOnlyKb
  rcases le_total a.rank_score b.rank_score with h | h
  · right; exact decide_eq_true h
  · left; exact decide_eq_true h

theorem rankOnlyKb_trans (a b c : DerivedCluster)
    (h1 : rankOnlyKb a b = true) (h2 : rankOnlyKb b c = true) :
    rankOnlyKb a c = true := by
  unfold rankOnlyKb at h1 h2 ⊢
  exact decide_eq_true (le_trans (of_decide_eq_true h2) (of_decide_eq_true h1))

/-- The strict lexicographic order behind the build script's ranked-cluster
comparator: higher rank score first, then newer `updated_at`, then the
smaller title. -/
theorem rankedBefore_iff (y x : RankedOut) :
    rankedBefore y x = true ↔
      (x.rank_score < y.rank_score ∨
        (y.rank_score = x.rank_score ∧
          (x.updated_at < y.updated_at ∨
            (y.updated_at = x.updated_at ∧ strLeJS y.title x.title = true)))) := by
  unfold rankedBefore
  by_cases h1 : y.rank_score = x.rank_score
  · by_cases h2 : y.updated_at = x.updated_at
    · simp [h1, h2]
    · simp [h1, h2]
  · simp [h1]

theorem rankedBefore_total (a b : RankedOut) :
    rankedBefore a b = true ∨ rankedBefore b a = true := by
  rw [rankedBefore_iff, rankedBefore_iff]
  rcases lt_trichotomy a.rank_score b.rank_score with h | h | h
  · right; exact Or.inl h
  · rcases lt_trichotomy a.updated_at b.updated_at with h2 | h2 | h2
    · right; exact Or.inr ⟨h.symm, Or.inl h2⟩
    · rcases charListLe_total a.title.toList b.title.toList with h3 | h3
      · left; exact Or.inr ⟨h, Or.inr ⟨h2, h3⟩⟩
      · right; exact Or.inr ⟨h.symm, Or.inr ⟨h2.symm, h3⟩⟩
    · left; exact Or.inr ⟨h, Or.inl h2⟩
  · left; exact Or.inl h

theorem rankedBefore_trans (a b c : RankedOut)
    (h1 : rankedBefore a b = true) (h2 : rankedBefore b c = true) :
    rankedBefore a c = true := by
  rw [rankedBefore_iff] at h1 h2 ⊢
  rcases h1 with h1 | ⟨h1e, h1r⟩
  · rcases h2 with h2 | ⟨h2e, h2r⟩
    · exact Or.inl (lt_trans h2 h1)
    · exact Or.inl (h2e ▸ h1)
  · rcases h2 with h2 | ⟨h2e, h2r⟩
    · exact Or.inl (h1e ▸ h2)
    · refine Or.inr ⟨h1e.trans h2e, ?_⟩
      rcases h1r with h1r | ⟨h1u, h1t⟩
      · rcases h2r with h2r | ⟨h2u, h2t⟩
        · exact Or.inl (lt_trans h2r h1r)
        · exact Or.inl (h2u ▸ h1r)
      · rcases h2r with h2r | ⟨h2u, h2t⟩
        · exact Or.inl (h1u ▸ h2r)
        · exact Or.inr ⟨h1u.trans h2u, charListLe_trans _ _ _ h1t h2t⟩

/-! ## Random-token independence machinery (for the payload builder) -/


theorem sameExceptId_fields (a b : RankedOut) (h : SameExceptId a b) :
    a.rank_score = b.rank_score ∧ a.updated_at = b.updated_at ∧
      a.title = b.title := by
  unfold SameExceptId stripId at h
  simp only [RankedOut.mk.injEq] at h
  obtain ⟨_, h1, h3, _, h2, _⟩ := h
  exact ⟨h1, h2, h3⟩

theorem rankedBefore_congr (a b a2 b2 : RankedOut)
    (ha : SameExceptId a a2) (hb : SameExceptId b b2) :
    rankedBefore a b = rankedBefore a2 b2 := by
  obtain ⟨h1, h2, h3⟩ := sameExceptId_fields a a2 ha
  obtain ⟨h4, h5, h6⟩ := sameExceptId_fields b b2 hb
  unfold rankedBefore
  rw [h1, h2, h3, h4, h5, h6]

theorem sameExceptId_stableInsert (x x2 : RankedOut) (l l2 : List RankedOut)
    (hx : SameExceptId x x2) (hl : List.Forall₂ SameExceptId l l2) :
    List.Forall₂ SameExceptId (stableInsert rankedBefore x l)
      (stableInsert rankedBefore x2 l2) := by
  induction hl with
  | nil => exact List.forall₂_cons.mpr ⟨hx, List.Forall₂.nil⟩
  | cons hy hys ih =>
    rename_i y y2 ys ys2
    by_cases h : rankedBefore y x = true
    · rw [stableInsert, if_pos h, stableInsert,
        if_pos ((rankedBefore_congr y x y2 x2 hy hx) ▸ h)]
      exact List.forall₂_cons.mpr ⟨hy, ih⟩
    · rw [stableInsert, if_neg h, stableInsert,
        if_neg (fun hc => h ((rankedBefore_congr y x y2 x2 hy hx) ▸ hc))]
      exact List.forall₂_cons.mpr ⟨hx, List.forall₂_cons.mpr ⟨hy, hys⟩⟩

theorem sameExceptId_stableSort (l l2 : List RankedOut)
    (hl : List.Forall₂ SameExceptId l l2) :
    List.Forall₂ SameExceptId (stableSort rankedBefore l)
      (stableSort rankedBefore l2) := by
  suffices h : ∀ (l l2 acc acc2 : List RankedOut),
      List.Forall₂ SameExceptId l l2 → List.Forall₂ SameExceptId acc acc2 →
      List.Forall₂ SameExceptId
        (l.foldl (fun acc x => stableInsert rankedBefore x acc) acc)
        (l2.foldl (fun acc x => stableInsert rankedBefore x acc) acc2) by
    exact h l l2 [] [] hl List.Forall₂.nil
  intro l l2 acc acc2 hll hacc
  induction hll generalizing acc acc2 with
  | nil => exact hacc
  | cons hx hxs ih =>
    exact ih _ _ (sameExceptId_stableInsert _ _ _ _ hx hacc)

theorem sameExceptId_take (n : Nat) (l l2 : List RankedOut)
    (hl : List.Forall₂ SameExceptId l l2) :
    List.Forall₂ SameExceptId (l.take n) (l2.take n) := by
  induction hl generalizing n with
  | nil => simp
  | cons hx hxs ih =>
    cases n with
    | zero => simp
    | succ n => exact List.forall₂_cons.mpr ⟨by assumption, ih n⟩

theorem sameExceptId_stamp (total : Nat) (l l2 : List RankedOut)
    (hl : List.Forall₂ SameExceptId l l2) :
    ∀ i, List.Forall₂ SameExceptId (stampPayloadPriorities total i l)
      (stampPayloadPriorities total i l2) := by
  induction hl with
  | nil => intro i; exact List.Forall₂.nil
  | cons hx hxs ih =>
    rename_i x x2 xs xs2
    intro i
    refine List.forall₂_cons.mpr ⟨?_, ih (i + 1)⟩
    unfold SameExceptId stripId at hx ⊢
    have := congrArg (fun c => { c with priority := payloadPriority total i }) hx
    simpa using this

theorem sameExceptId_map_stripId (l l2 : List RankedOut)
    (hl : List.Forall₂ SameExceptId l l2) :
    l.map stripId = l2.map stripId := by
  induction hl with
  | nil => rfl
  | cons hx hxs ih =>
    rw [List.map_cons, List.map_cons, hx, ih]

theorem sameExceptId_buildRanked (r1 r2 : Nat → String) (now : Int) :
    ∀ (i : Nat) (cs : List ClusterB),
      List.Forall₂ SameExceptId (buildRanked r1 now i cs)
        (buildRanked r2 now i cs) := by
  intro i cs
  induction cs generalizing i with
  | nil => exact List.Forall₂.nil
  | cons c rest ih =>
    refine List.forall₂_cons.mpr ⟨?_, ih (i + 1)⟩
    unfold SameExceptId
    rfl

/-! ## Priority stamping preserves the sorted order -/

theorem rankedBefore_set_priority (a b : RankedOut) (p q : String) :
    rankedBefore { a with priority := p } { b with priority := q } =
      rankedBefore a b := rfl

theorem mem_stampPayloadPriorities (total : Nat) (l : List RankedOut)
    (b : RankedOut) :
    ∀ i, b ∈ stampPayloadPriorities total i l →
      ∃ c ∈ l, ∃ j, b = { c with priority := payloadPriority total j } := by
  induction l with
  | nil => intro i h; simp [stampPayloadPriorities] at h
  | cons c rest ih =>
    intro i h
    rw [stampPayloadPriorities, List.mem_cons] at h
    rcases h with rfl | h
    · exact ⟨c, List.mem_cons_self c rest, i, rfl⟩
    · rcases ih (i + 1) h with ⟨c2, hc2, j, hj⟩
      exact ⟨c2, List.mem_cons_of_mem c hc2, j, hj⟩

theorem pairwise_stampPayloadPriorities (total : Nat) (l : List RankedOut)
    (hl : l.Pairwise (fun a b => rankedBefore a b = true)) :
    ∀ i, (stampPayloadPriorities total i l).Pairwise
      (fun a b => rankedBefore a b = true) := by
  induction l with
  | nil => intro i; exact List.Pairwise.nil
  | cons c rest ih =>
    rcases List.pairwise_cons.mp hl with ⟨hc, hrest⟩
    intro i
    rw [stampPayloadPriorities]
    refine List.pairwise_cons.mpr ⟨?_, ih hrest (i + 1)⟩
    intro b hb
    rcases mem_stampPayloadPriorities total rest b (i + 1) hb with ⟨c2, hc2, j, rfl⟩
    rw [rankedBefore_set_priority]
    exact hc c2 hc2

/-! ## The claims -/

/-- C3: for every input list of items, the Clusterer's output exactly
partitions the input: every output cluster contains at least one item, and
the concatenation of all clusters' article lists is a permutation of the
input list (each input item appears exactly once across the clusters). -/
theorem clusterItems_partition (items : List Item) :
    (∀ c ∈ clusterItems items, c.articles ≠ []) ∧
    (joinArticles (clusterItems items)).Perm items := by
  constructor
  · exact articles_ne_nil_foldl items [] (by intro c hc; simp at hc)
  · exact joinArticles_foldl items []

/-- Witness for C3 at a concrete one-item input. -/
theorem clusterItems_partition_witness :
    (seedCluster sampleItem).articles ≠ [] ∧
    (joinArticles (clusterItems [sampleItem])).Perm [sampleItem] :=
  ⟨(clusterItems_partition [sampleItem]).1 (seedCluster sampleItem) (by decide),
   (clusterItems_partition [sampleItem]).2⟩

/-- C9: every cluster produced by the Clusterer has `updated_at` equal to
the maximum timestamp among its member items: it is the timestamp of some
member and bounds the timestamp of every member. Seeding and every
absorption step preserve this. -/
theorem clusterItems_updatedAt_max (items : List Item) (c : ClusterB)
    (h : c ∈ clusterItems items) :
    c.updated_at ∈ c.articles.map (fun a => a.timestamp) ∧
      ∀ a ∈ c.articles, a.timestamp ≤ c.updated_at :=
  updIsMax_foldl items [] (by intro c hc; simp at hc) c h

/-- Witness for C9 at a concrete one-item input. -/
theorem clusterItems_updatedAt_max_witness :
    (seedCluster sampleItem).updated_at ∈
        (seedCluster sampleItem).articles.map (fun a => a.timestamp) ∧
      ∀ a ∈ (seedCluster sampleItem).articles,
        a.timestamp ≤ (seedCluster sampleItem).updated_at :=
  clusterItems_updatedAt_max [sampleItem] (seedCluster sampleItem) (by decide)

/-- C4: the Clusterer processes items in input order and each step agrees
with the spec's description: the first existing cluster (in creation
order) whose current `updated_at` is within 24 hours of the item's
timestamp and which is similar (identical normalized title, or spec
Jaccard overlap of the keyword sets at least 0.45) absorbs the item
(articles gain the item, keywords become the union, `updated_at` advances
if newer); otherwise a new singleton cluster seeded from the item is
appended. The overlap of two empty keyword sets is 0, never a match. -/
theorem clusterItems_step_spec :
    (∀ (cs : List ClusterB) (item : Item),
      insertItem cs item = specInsert cs item) ∧
    (∀ items : List Item, clusterItems items = items.foldl specInsert []) ∧
    overlapScore [] [] = 0 ∧ ¬ ((45 : ℚ) / 100 ≤ overlapScore [] []) := by
  refine ⟨insertItem_eq_specInsert, ?_, by decide, by decide⟩
  intro items
  have hfun : insertItem = specInsert :=
    funext fun cs => funext fun it => insertItem_eq_specInsert cs it
  rw [clusterItems, hfun]

/-- C5: the Best-Item Selector's per-candidate score is
`reliabilityValue * 3 + sourceWeightValue + freshnessTerm + regionWeight -
sensationalismPenalty + paywallPenalty`, with reliability valued 1/2/3 for
Low/Med/High, source weight +1, 0, -3 for boost, normal, hide, freshness
`max(0, 48 - hoursSincePublished) / 24`, sensationalism accumulating +0.3
for a spam word, +0.2 for more than one `!`, +0.3 for an all-caps title of
length at least 18, and the paywall penalty -100 (hide mode) or -1
(downrank mode) on paywalled items and 0 otherwise. -/
theorem chooseBestArticle_score_formula :
    (∀ (s : FeedSettings) (now : Int) (a : Article),
      (scoreArticle s now a).score =
        reliabilityValue a.labels.reliability * 3 +
        sourceWeightValue (resolvedSourceWeight s a) +
        freshnessTerm now a.timestamp + regionWeightOf s a -
        sensationalismPenalty a.title + paywallPenalty s a) ∧
    (∀ (c : TodayCluster) (s : FeedSettings) (now : Int) (e : ScoredEntry),
      e ∈ scoredEntries c s now → ∃ a ∈ c.articles, e = scoreArticle s now a) ∧
    (reliabilityValue .low = 1 ∧ reliabilityValue .med = 2 ∧
      reliabilityValue .high = 3) ∧
    (sourceWeightValue .boost = 1 ∧ sourceWeightValue .normal = 0 ∧
      sourceWeightValue .hide = -3) ∧
    (∀ title, sensationalismPenalty title =
      (if hasSpamWord title then 3 / 10 else 0) +
      (if bangCount title > 1 then 2 / 10 else 0) +
      (if isAllCapsLong title then 3 / 10 else 0)) ∧
    (∀ (s : FeedSettings) (a : Article), s.paywallMode = .hide →
      a.labels.paywall = .yes → paywallPenalty s a = -100) ∧
    (∀ (s : FeedSettings) (a : Article), s.paywallMode = .downrank →
      a.labels.paywall = .yes → paywallPenalty s a = -1) ∧
    (∀ (s : FeedSettings) (a : Article), a.labels.paywall = .no →
      paywallPenalty s a = 0) := by
  refine ⟨fun s now a => rfl, ?_, ⟨rfl, rfl, rfl⟩, ⟨rfl, rfl, rfl⟩, ?_, ?_, ?_, ?_⟩
  · intro c s now e he
    rw [show scoredEntries c s now =
        stableSort scoreDescKb (c.articles.map (scoreArticle s now)) from rfl,
      mem_stableSort] at he
    rcases List.mem_map.mp he with ⟨a, ha, hae⟩
    exact ⟨a, ha, hae.symm⟩
  · intro title
    unfold sensationalismPenalty
    by_cases h1 : hasSpamWord title = true <;>
      by_cases h2 : bangCount title > 1 <;>
      by_cases h3 : isAllCapsLong title = true <;>
      simp [h1, h2, h3]
  · intro s a h1 h2
    unfold paywallPenalty
    rw [if_pos ⟨h1, h2⟩]
  · intro s a h1 h2
    unfold paywallPenalty
    rw [if_neg (fun hc => by rw [h1] at hc; exact absurd hc.1 (by decide)),
      if_pos ⟨h1, h2⟩]
  · intro s a h1
    unfold paywallPenalty
    rw [if_neg (fun hc => by rw [h1] at hc; exact absurd hc.2 (by decide)),
      if_neg (fun hc => by rw [h1] at hc; exact absurd hc.2 (by decide))]

/-- Witness for C5's conditional conjuncts at concrete inputs: the scored
entry of a concrete one-article cluster comes from scoring that article,
and a paywalled article is penalized -100 under hide mode and -1 under
downrank mode. -/
theorem chooseBestArticle_score_formula_witness :
    (∃ a ∈ tieClusterB.articles,
      scoreArticle tieSettings 0 articleMed = scoreArticle tieSettings 0 a) ∧
    paywallPenalty pwHideSettings pwArticle = -100 ∧
    paywallPenalty pwDownSettings pwArticle = -1 := by
  refine ⟨?_, ?_, ?_⟩
  · rcases chooseBestArticle_score_formula.2.1 tieClusterB tieSettings 0
      (scoreArticle tieSettings 0 articleMed) (by decide) with ⟨a, ha, hae⟩
    exact ⟨a, ha, by rw [← hae]⟩
  · exact chooseBestArticle_score_formula.2.2.2.2.2.1 pwHideSettings pwArticle
      rfl rfl
  · exact chooseBestArticle_score_formula.2.2.2.2.2.2.1 pwDownSettings pwArticle
      rfl rfl

/-- C10: the Best-Item Selector is total exactly on clusters with at least
one article: the model returns `none` (the JS code dereferences
`undefined` and throws) precisely when the cluster's article list is
empty. -/
theorem chooseBestArticle_none_iff (c : TodayCluster) (s : FeedSettings)
    (now : Int) :
    chooseBestArticle c s now = none ↔ c.articles = [] := by
  constructor
  · intro hnone
    unfold chooseBestArticle at hnone
    cases hf : (scoredEntries c s now).find? (fun e => !e.blocked) with
    | some e =>
      rw [hf] at hnone
      simp at hnone
    | none =>
      cases hh : (scoredEntries c s now).head? with
      | some e =>
        rw [hf, hh] at hnone
        simp at hnone
      | none =>
        have hsc : scoredEntries c s now = [] := List.head?_eq_none_iff.mp hh
        have hlen := length_stableSort scoreDescKb
          (c.articles.map (scoreArticle s now))
        rw [show stableSort scoreDescKb (c.articles.map (scoreArticle s now)) =
            scoredEntries c s now from rfl, hsc] at hlen
        simp only [List.length_nil, List.length_map] at hlen
        exact List.length_eq_zero.mp hlen.symm
  · intro h
    have hsc : scoredEntries c s now = [] := by
      rw [scoredEntries, h]
      rfl
    unfold chooseBestArticle
    rw [hsc]
    rfl

/-- C1 (amended): for every cluster with at least one article, the
Best-Item Selector returns a result; its candidate list is sorted by score
descending; the winner is the first non-blocked candidate in that order;
and when every candidate is blocked the selector falls back to the
highest-scoring candidate (the head of the sorted order), with a trace
that starts with "Fallback". -/
theorem chooseBestArticle_selection (c : TodayCluster) (s : FeedSettings)
    (now : Int) (h : c.articles ≠ []) :
    ∃ r : BestChoice, chooseBestArticle c s now = some r ∧
      (scoredEntries c s now).Pairwise (fun a b => b.score ≤ a.score) ∧
      (∀ e, (scoredEntries c s now).find? (fun x => !x.blocked) = some e →
        r.best = e.article) ∧
      ((∀ e ∈ scoredEntries c s now, e.blocked = true) →
        ∃ e0, (scoredEntries c s now).head? = some e0 ∧ r.best = e0.article ∧
          (∀ e ∈ scoredEntries c s now, e.score ≤ e0.score) ∧
          strStartsWith r.trace "Fallback" = true) := by
  have hpw : (scoredEntries c s now).Pairwise
      (fun a b => scoreDescKb a b = true) :=
    pairwise_stableSort scoreDescKb scoreDescKb_total scoreDescKb_trans _
  have hpw2 : (scoredEntries c s now).Pairwise (fun a b => b.score ≤ a.score) :=
    hpw.imp (fun hab => of_decide_eq_true hab)
  have hne : scoredEntries c s now ≠ [] := by
    intro hc
    have hlen := length_stableSort scoreDescKb
      (c.articles.map (scoreArticle s now))
    rw [show stableSort scoreDescKb (c.articles.map (scoreArticle s now)) =
        scoredEntries c s now from rfl, hc] at hlen
    simp only [List.length_nil, List.length_map] at hlen
    exact h (List.length_eq_zero.mp hlen.symm)
  cases hf : (scoredEntries c s now).find? (fun x => !x.blocked) with
  | some e =>
    refine ⟨mkChoice e (scoredEntries c s now) s, ?_, hpw2, ?_, ?_⟩
    · unfold chooseBestArticle
      rw [hf]
    · intro e2 he2
      injection he2 with he2
      rw [← he2]
      rfl
    · intro hb
      exfalso
      have h1 := List.find?_some hf
      have h2 := List.mem_of_find?_eq_some hf
      simp [hb e h2] at h1
  | none =>
    cases hh : (scoredEntries c s now).head? with
    | none => exact absurd (List.head?_eq_none_iff.mp hh) hne
    | some e0 =>
      refine ⟨mkChoice e0 (scoredEntries c s now) s, ?_, hpw2, ?_, ?_⟩
      · unfold chooseBestArticle
        rw [hf, hh]
      · intro e2 he2
        exact absurd he2 (by simp)
      · intro hb
        refine ⟨e0, rfl, rfl, ?_, ?_⟩
        · obtain ⟨l, hsc⟩ : ∃ l, scoredEntries c s now = e0 :: l := by
            cases hsceq : scoredEntries c s now with
            | nil => rw [hsceq] at hh; simp at hh
            | cons a l =>
              rw [hsceq] at hh
              rw [List.head?_cons] at hh
              injection hh with hh
              exact ⟨l, by rw [hh]⟩
          intro e he
          rw [hsc] at he hpw2
          rcases List.mem_cons.mp he with rfl | he
          · exact le_refl _
          · exact (List.pairwise_cons.mp hpw2).1 e he
        · have hbe0 : e0.blocked = true := hb e0 (head?_mem hh)
          show strStartsWith (mkChoice e0 (scoredEntries c s now) s).trace
            "Fallback" = true
          simp only [mkChoice, hbe0, if_true]
          decide

/-- Witness for C1's amended statement at a concrete two-article cluster
with a non-empty article list. -/
theorem chooseBestArticle_selection_witness :
    ∃ r : BestChoice,
      chooseBestArticle fallbackCluster fallbackSettings 172800000 = some r ∧
      (scoredEntries fallbackCluster fallbackSettings 172800000).Pairwise
        (fun a b => b.score ≤ a.score) ∧
      (∀ e, (scoredEntries fallbackCluster fallbackSettings 172800000).find?
          (fun x => !x.blocked) = some e → r.best = e.article) ∧
      ((∀ e ∈ scoredEntries fallbackCluster fallbackSettings 172800000,
          e.blocked = true) →
        ∃ e0, (scoredEntries fallbackCluster fallbackSettings 172800000).head? =
            some e0 ∧ r.best = e0.article ∧
          (∀ e ∈ scoredEntries fallbackCluster fallbackSettings 172800000,
            e.score ≤ e0.score) ∧
          strStartsWith r.trace "Fallback" = true) :=
  chooseBestArticle_selection fallbackCluster fallbackSettings 172800000
    (by decide)

/-- C1 (counterexample): here every candidate is blocked and the selector
returns the highest-scoring candidate, which has Low reliability even
though a High-reliability candidate is present in the cluster — so the
fallback is not "the globally highest-reliability candidate"; moreover the
trace contains "Fallback" but not the lowercase word "fallback". -/
theorem chooseBestArticle_fallback_counterexample :
    (scoredEntries fallbackCluster fallbackSettings 172800000).all
        (fun e => e.blocked) = true ∧
    (chooseBestArticle fallbackCluster fallbackSettings 172800000).map
        (fun r => r.best.labels.reliability) = some .low ∧
    articleHighA ∈ fallbackCluster.articles ∧
    articleHighA.labels.reliability = .high ∧
    (chooseBestArticle fallbackCluster fallbackSettings 172800000).map
        (fun r => strContains r.trace "fallback") = some false ∧
    (chooseBestArticle fallbackCluster fallbackSettings 172800000).map
        (fun r => strContains r.trace "Fallback") = some true := by
  decide

/-- C2 (amended): deduplication emits at most one item per exact canonical
URL, with output positions in first-occurrence order of the URLs, but on a
collision it keeps the LAST-seen item (repeated `Map.set` overwrites the
stored value), not the first-seen one. -/
theorem dedupe_urls_and_last_wins (items : List Item) :
    ((dedupe items).map (fun it => it.url) =
      jsSetDedup (items.map (fun it => it.url))) ∧
    ∀ it ∈ dedupe items,
      (items.filter (fun x => decide (x.url = it.url))).getLast? = some it := by
  have hko : KeysOk (items.foldl (fun m it => mapInsert m it.url it) []) :=
    keysOk_foldl items [] ⟨List.nodup_nil, by intro p hp; simp at hp⟩
  constructor
  · show ((items.foldl (fun m it => mapInsert m it.url it) []).map
        (fun p => p.2)).map (fun it => it.url) = _
    have hmm2 : ((items.foldl (fun m it => mapInsert m it.url it) []).map
        (fun p => p.2)).map (fun it => it.url) =
        (items.foldl (fun m it => mapInsert m it.url it) []).map
          (fun p => p.2.url) := by
      rw [List.map_map]
      rfl
    have hcg : (items.foldl (fun m it => mapInsert m it.url it) []).map
        (fun p => p.2.url) =
        (items.foldl (fun m it => mapInsert m it.url it) []).map
          (fun p => p.1) :=
      List.map_congr_left (fun p hp => hko.2 p hp)
    rw [hmm2, hcg, dedupe_keys items []]
    rfl
  · intro it hit
    unfold dedupe at hit
    rcases List.mem_map.mp hit with ⟨p, hp, hsnd⟩
    have hurl : p.1 = it.url := by rw [← hsnd]; exact (hko.2 p hp).symm
    have hlk : lookupKey p.1
        (items.foldl (fun m it => mapInsert m it.url it) []) = some p.2 :=
      lookupKey_eq_of_mem _ p hp hko.1
    have hdl := dedupe_lookup items [] p.1
    rw [hlk, lookupKey_nil, Option.or_none] at hdl
    rw [← hurl, ← hsnd]
    exact hdl.symm

/-- Witness for C2's amended statement at a concrete two-item collision. -/
theorem dedupe_urls_and_last_wins_witness :
    ((dedupe [dupItemA, dupItemB]).map (fun it => it.url) =
      jsSetDedup ([dupItemA, dupItemB].map (fun it => it.url))) ∧
    ([dupItemA, dupItemB].filter
        (fun x => decide (x.url = dupItemB.url))).getLast? = some dupItemB :=
  ⟨(dedupe_urls_and_last_wins [dupItemA, dupItemB]).1,
   (dedupe_urls_and_last_wins [dupItemA, dupItemB]).2 dupItemB (by decide)⟩

/-- C2 (counterexample): two items with identical canonical URLs; `dedupe`
keeps exactly the second (last-seen) one, not the first-seen one. -/
theorem dedupe_first_wins_counterexample :
    dupItemA.url = dupItemB.url ∧ dupItemA ≠ dupItemB ∧
    dedupe [dupItemA, dupItemB] = [dupItemB] ∧
    dedupe [dupItemA, dupItemB] ≠ [dupItemA] := by
  decide

/-- C6 (amended): the build script's `toTodayJson` orders its output
clusters by rank score descending, tie-broken by newer `updated_at` and
then by the lexically smaller title (so "A Story" sorts before "B Story"
at an equal 0.812 score); the frontend's `deriveClusters`, by contrast,
sorts only by rank score and keeps input order on ties (see the
counterexample). -/
theorem payload_order_tiebreak :
    (∀ (iso : Int → String) (maxStories : Nat) (rand : Nat → String)
        (now : Int) (items : List Item),
      ((toTodayJson iso maxStories rand now items).clusters).Pairwise
        (fun a b => rankedBefore a b = true)) ∧
    stableSort rankedBefore [tieRankedB, tieRankedA] =
      [tieRankedA, tieRankedB] ∧
    tieRankedB.rank_score = tieRankedA.rank_score ∧
    strLtJS tieRankedA.title tieRankedB.title = true := by
  refine ⟨?_, by decide, by decide, by decide⟩
  intro iso maxStories rand now items
  have hpw := pairwise_stableSort rankedBefore rankedBefore_total
    rankedBefore_trans (buildRanked rand now 0 (clusterItems (dedupe items)))
  have htake := List.Pairwise.sublist (List.take_sublist maxStories _) hpw
  exact pairwise_stampPayloadPriorities _ _ htake 0

/-- C6 (counterexample): `deriveClusters` gives both clusters the same rank
score 0.49 and the same `updated_at`, yet outputs "B Story" before
"A Story" because its sort has no tie-break (the stable sort keeps input
order), contrary to the claimed title tie-break, which would put "A Story"
first. -/
theorem deriveClusters_tie_counterexample :
    (deriveClusters tieToday tieSettings 0).map
        (fun l => l.map (fun c => c.title)) = some ["B Story", "A Story"] ∧
    (deriveClusters tieToday tieSettings 0).map
        (fun l => l.map (fun c => c.rank_score)) = some [49 / 100, 49 / 100] ∧
    (deriveClusters tieToday tieSettings 0).map
        (fun l => l.map (fun c => c.updated_at)) = some [0, 0] ∧
    strLtJS "A Story" "B Story" = true := by
  decide

/-- C7 (code bug): in `parseRssItem` an ABSENT date field resolves to
"now" and the record is produced, but a present-yet-unparseable date value
makes `new Date(publishedAt).toISOString()` throw a RangeError (modelled
as `Except.error`), failing the record and, through the per-feed try of
the caller, the whole feed — the record is not produced with a "now"
timestamp as the spec states. -/
theorem parseRssItem_date_handling (parseDate : String → Option Int)
    (canon dom : String → String) (now : Int) (url title snippet : String)
    (feed : FeedDesc) (sources : List SourceMeta)
    (hurl : url ≠ "") (htitle : title ≠ "") :
    (∃ item : Item,
      parseRssItem parseDate canon dom now url title snippet "" feed sources =
        .ok (some item) ∧ item.timestamp = now) ∧
    (∀ d, d ≠ "" → parseDate d = none →
      parseRssItem parseDate canon dom now url title snippet d feed sources =
        .error ()) := by
  have hcond : ¬ (url = "" ∨ title = "") := by
    rintro (hc | hc)
    · exact hurl hc
    · exact htitle hc
  constructor
  · unfold parseRssItem
    rw [if_neg hcond]
    exact ⟨_, rfl, rfl⟩
  · intro d hd hpd
    unfold parseRssItem
    rw [if_neg hcond]
    simp [hd, hpd]

/-- Witness for C7 at concrete inputs: an empty (absent) date field yields
a record stamped with "now" = 7; the non-empty unparseable value
"not a date" (on which the date parser yields no timestamp) makes the
parser throw instead of producing a record. -/
theorem parseRssItem_date_handling_witness :
    (∃ item : Item,
      parseRssItem parseDateNone id id 7 "https://x.com/a" "Title" ""
          "" sampleFeed [] = .ok (some item) ∧ item.timestamp = 7) ∧
    parseRssItem parseDateNone id id 7 "https://x.com/a" "Title" ""
        "not a date" sampleFeed [] = .error () := by
  have h := parseRssItem_date_handling parseDateNone id id 7 "https://x.com/a"
    "Title" "" sampleFeed [] (by decide) (by decide)
  exact ⟨h.1, h.2 "not a date" (by decide) rfl⟩

/-- C8 (amended): with the item list, the current time, the ISO formatter
and the Math.random token stream all fixed, `toTodayJson` is a pure
function of its inputs; and every part of the payload except each
cluster's random `cluster_id` is independent of the random stream:
erasing the ids gives identical payloads for any two streams — in
particular rank scores, ordering, priorities and dates are identical. -/
theorem toTodayJson_rand_independent (iso : Int → String) (maxStories : Nat)
    (r1 r2 : Nat → String) (now : Int) (items : List Item) :
    stripPayloadIds (toTodayJson iso maxStories r1 now items) =
      stripPayloadIds (toTodayJson iso maxStories r2 now items) := by
  have hbr := sameExceptId_buildRanked r1 r2 now 0 (clusterItems (dedupe items))
  have hsort := sameExceptId_stableSort _ _ hbr
  have htake := sameExceptId_take maxStories _ _ hsort
  have hlen := htake.length_eq
  have hstamp := sameExceptId_stamp
    ((stableSort rankedBefore (buildRanked r1 now 0
      (clusterItems (dedupe items)))).take maxStories).length _ _ htake 0
  have hmap := sameExceptId_map_stripId _ _ hstamp
  have e1 : stripPayloadIds (toTodayJson iso maxStories r1 now items) =
      TodayPayload.mk (String.mk ((iso now).toList.take 10)) (iso now)
        ((stampPayloadPriorities
          ((stableSort rankedBefore (buildRanked r1 now 0
            (clusterItems (dedupe items)))).take maxStories).length 0
          ((stableSort rankedBefore (buildRanked r1 now 0
            (clusterItems (dedupe items)))).take maxStories)).map stripId) := rfl
  have e2 : stripPayloadIds (toTodayJson iso maxStories r2 now items) =
      TodayPayload.mk (String.mk ((iso now).toList.take 10)) (iso now)
        ((stampPayloadPriorities
          ((stableSort rankedBefore (buildRanked r2 now 0
            (clusterItems (dedupe items)))).take maxStories).length 0
          ((stableSort rankedBefore (buildRanked r2 now 0
            (clusterItems (dedupe items)))).take maxStories)).map stripId) := rfl
  rw [e1, e2, ← hlen]
  exact congrArg (TodayPayload.mk (String.mk ((iso now).toList.take 10))
    (iso now)) hmap

/-- C8 (counterexample): two runs with identical items and identical
current time but different Math.random streams produce different payloads:
the `cluster_id` embeds the random token, so the run is not idempotent at
fixed inputs and fixed time. -/
theorem toTodayJson_rand_counterexample :
    toTodayJson isoConst 40 randTokensA 0 [singleItem] ≠
      toTodayJson isoConst 40 randTokensB 0 [singleItem] ∧
    (toTodayJson isoConst 40 randTokensA 0 [singleItem]).clusters.map
        (fun c => c.cluster_id) = ["cluster-aaaaaaa"] ∧
    (toTodayJson isoConst 40 randTokensB 0 [singleItem]).clusters.map
        (fun c => c.cluster_id) = ["cluster-bbbbbbb"] := by
  decide

end Newsfeed
